import Mathlib

/-!
# bsc_argparse: the argument registry and the `parse` state machine

A shallow embedding of `src/argparse.h`.

Modelling conventions.

* `std::string` is a Lean `String`; one `Char` stands for one byte, so
  `name.length()` is `String.length` and `name[0]` is the first character
  (`'\0'`, hence not `'-'`, when there is none).
* `Argument<T>` is one record `Argument`; the value type `T` is the partition
  (`Ty`) the argument is stored in.  The pointer `T * value` is an address into
  the caller's memory of type `T`; `*(value + i)` is the cell `value + i`.
* The five `std::unordered_map`s are association lists with unique keys:
  `insert` leaves the map alone when the key is present, and the iteration
  order is the list order.
* `static int argparse_num_required` is passed explicitly.
* `exit(-1)` (directly or through `print_help`) and an exception thrown by
  `std::stoi` / `std::stof` / `std::stod` end `parse`; the state at that moment
  is kept in the outcome.
* `std::stof` and `std::stod` are library functions over floating point; they
  are parameters of the model (`Env`).  `std::stoi` is modelled.
* `args_to_parse[i]` with `i` past the end is undefined behaviour in C++.  The
  model lets such a read yield an arbitrary string (`Env.junk`), continues, and
  records every index read in `PState.reads`.
* Of `print_help` the model keeps the exit and the vector `optional_args`: the
  map `optional_args_map` is an association list keyed by name, and `std::sort`
  is an insertion sort with the source's comparator.
-/

namespace bsc

/-! ## Strings -/

/-- The test `s[0] == '-'` on a `std::string`. -/
def starts_dash (s : String) : Bool :=
  match s.data with
  | c :: _ => c == '-'
  | [] => false

/-- The test `s[0] == '-' && s[1] == '-'`. -/
def starts_two_dashes (s : String) : Bool :=
  match s.data with
  | c :: d :: _ => c == '-' && d == '-'
  | _ => false

/-- The C locale's `isspace`. -/
def isspace (c : Char) : Bool :=
  c == ' ' || c == '\t' || c == '\n' || c == '\x0b' || c == '\x0c' || c == '\r'

/-- The value of a run of decimal digits. -/
def digits_value (ds : List Char) : Nat :=
  ds.foldl (fun acc c => 10 * acc + (c.toNat - 48)) 0

/-- The library function `std::stoi(s)` (base 10): leading white space, an optional sign,
then the longest run of digits.  `none` stands for a thrown exception
(`std::invalid_argument` when there is no digit, `std::out_of_range` when the
value does not fit a 32-bit `int`). -/
def stoi (s : String) : Option Int :=
  let cs := s.data.dropWhile isspace
  let neg : Bool := match cs with
    | c :: _ => c == '-'
    | [] => false
  let rest : List Char := match cs with
    | c :: r => if c == '-' || c == '+' then r else c :: r
    | [] => []
  let ds := rest.takeWhile Char.isDigit
  if ds.isEmpty then none
  else
    let v : Int := if neg then -(digits_value ds : Int) else (digits_value ds : Int)
    if -2147483648 ≤ v ∧ v ≤ 2147483647 then some v else none

/-! ## Arguments and their constructors -/

/-- The record `Argument<T>` without its type parameter. -/
structure Argument where
  name : String
  short_name : String
  message : String
  value : Nat
  required : Bool
  positional : Int
  length : Int
  deriving DecidableEq, Repr

/-- The five value types an argument can have; each has its own partition. -/
inductive Ty where
  | str | int | float | double | bool
  deriving DecidableEq, Repr

/-- Why a constructor ended the process (`exit(-1)`). -/
inductive CtorExit where
  | empty_name
  | long_name_too_short
  | short_name_bad_length
  deriving DecidableEq, Repr

/-- The constructor `Argument(name, message, value, length)`.  It returns the argument and
the new value of `argparse_num_required`. -/
def Argument.ctor1 (num_required : Nat) (name message : String) (value : Nat) (length : Int) :
    Except CtorExit (Argument × Nat) :=
  if name.length = 0 then .error .empty_name
  else if starts_two_dashes name then
    if name.length < 3 then .error .long_name_too_short
    else .ok ({ name := name, short_name := "", message := message, value := value,
                required := false, positional := -1,
                length := if length < 2 then 1 else length }, num_required)
  else if starts_dash name then
    if name.length ≠ 2 then .error .short_name_bad_length
    else .ok ({ name := name, short_name := "", message := message, value := value,
                required := false, positional := -1,
                length := if length < 2 then 1 else length }, num_required)
  else
    .ok ({ name := name, short_name := "", message := message, value := value,
           required := true, positional := (num_required : Int),
           length := length }, num_required + 1)

/-- The constructor `Argument(short_name, name, message, value, length)`; it never touches
`argparse_num_required`. -/
def Argument.ctor2 (short_name name message : String) (value : Nat) (length : Int) :
    Except CtorExit Argument :=
  if name.length < 3 then .error .long_name_too_short
  else if short_name.length ≠ 2 then .error .short_name_bad_length
  else .ok { name := name, short_name := short_name, message := message, value := value,
             required := false, positional := -1, length := length }

/-! ## The registry -/

/-- One `std::unordered_map<std::string, Argument<T>>`. -/
abbrev Partition := List (String × Argument)

/-- The class `ArgParse`. -/
structure ArgParse where
  name : String
  description : String
  str_args : Partition
  int_args : Partition
  float_args : Partition
  double_args : Partition
  bool_args : Partition
  deriving DecidableEq, Repr

/-- A default-constructed `ArgParse`. -/
def ArgParse.empty : ArgParse :=
  { name := "", description := "", str_args := [], int_args := [], float_args := [],
    double_args := [], bool_args := [] }

/-- The partition of a value type. -/
def ArgParse.part (r : ArgParse) : Ty → Partition
  | .str => r.str_args
  | .int => r.int_args
  | .float => r.float_args
  | .double => r.double_args
  | .bool => r.bool_args

/-- Replace the partition of a value type. -/
def ArgParse.set_part (r : ArgParse) (ty : Ty) (p : Partition) : ArgParse :=
  match ty with
  | .str => { r with str_args := p }
  | .int => { r with int_args := p }
  | .float => { r with float_args := p }
  | .double => { r with double_args := p }
  | .bool => { r with bool_args := p }

/-- The template `find(key, args)`: the mapped argument, or `nullptr`. -/
def find (key : String) (args : Partition) : Option Argument :=
  match args with
  | [] => none
  | (k, a) :: rest => if k = key then some a else find key rest

/-- The template `find_at_position(position, args)`: the first entry, in iteration order,
whose `positional` is `position`. -/
def find_at_position (position : Int) (args : Partition) : Option Argument :=
  match args with
  | [] => none
  | (_, a) :: rest => if a.positional = position then some a else find_at_position position rest

/-- The call `args.insert(std::make_pair(key, arg))`: nothing happens when the key is present. -/
def insert (key : String) (arg : Argument) (args : Partition) : Partition :=
  match find key args with
  | some _ => args
  | none => args ++ [(key, arg)]

/-- The method `exists_already(name)`. -/
def exists_already (r : ArgParse) (name : String) : Bool :=
  if (find name r.str_args).isSome then true
  else if (find name r.int_args).isSome then true
  else if (find name r.float_args).isSome then true
  else if (find name r.double_args).isSome then true
  else if (find name r.bool_args).isSome then true
  else false

/-- The outcome of the conflict branch of `add`: the message, then `print_help`, which exits. -/
inductive AddExit where
  | conflict (name : String)
  deriving DecidableEq, Repr

/-- The template `add(arg, args)` on the partition of `ty`. -/
def add (ty : Ty) (arg : Argument) (r : ArgParse) : Except AddExit ArgParse :=
  let check_name := !exists_already r arg.name
  let check_short_name := if arg.short_name.length = 0 then true
                          else !exists_already r arg.short_name
  if check_name && check_short_name then
    let args1 := insert arg.name arg (r.part ty)
    let args2 := if !arg.required then insert arg.short_name arg args1 else args1
    .ok (r.set_part ty args2)
  else
    .error (.conflict arg.name)

/-! ## Caller memory and conversions -/

/-- The caller's memory, one address space for each value type. -/
structure Store (F D : Type) where
  strs : Nat → String
  ints : Nat → Int
  floats : Nat → F
  doubles : Nat → D
  bools : Nat → Bool

/-- A value of one of the five types. -/
inductive Value (F D : Type) where
  | str (s : String)
  | int (i : Int)
  | float (x : F)
  | double (x : D)
  | bool (b : Bool)

/-- The assignment `*(p) = v` for a pointer `p` of the value's type. -/
def Store.write {F D : Type} (m : Store F D) (addr : Nat) : Value F D → Store F D
  | .str s => { m with strs := fun a => if a = addr then s else m.strs a }
  | .int i => { m with ints := fun a => if a = addr then i else m.ints a }
  | .float x => { m with floats := fun a => if a = addr then x else m.floats a }
  | .double x => { m with doubles := fun a => if a = addr then x else m.doubles a }
  | .bool b => { m with bools := fun a => if a = addr then b else m.bools a }

/-- The cell at an address of the memory of a type, as a `Value`. -/
def Store.read {F D : Type} (m : Store F D) (ty : Ty) (addr : Nat) : Value F D :=
  match ty with
  | .str => .str (m.strs addr)
  | .int => .int (m.ints addr)
  | .float => .float (m.floats addr)
  | .double => .double (m.doubles addr)
  | .bool => .bool (m.bools addr)

/-- What the model takes from outside the repository: the floating-point library
conversions (`none` is a thrown exception), the floating-point images of the `int` 1, and
the content of a read past the end of `args_to_parse`. -/
structure Env (F D : Type) where
  stof : String → Option F
  stod : String → Option D
  one_f : F
  one_d : D
  junk : Nat → String

/-- The acceptance functions handed to `parse_arg`: `identity` for strings, `accept`
(which returns 1) for the other types. -/
def acceptance_function {F D : Type} (env : Env F D) : Ty → String → Value F D
  | .str, s => .str s
  | .int, _ => .int 1
  | .float, _ => .float env.one_f
  | .double, _ => .double env.one_d
  | .bool, _ => .bool true

/-- The conversion functions handed to `parse_arg`: `identity`, `to_int`, `to_float`,
`to_double`, `to_bool`; `none` is a thrown exception. -/
def conversion_funct {F D : Type} (env : Env F D) : Ty → String → Option (Value F D)
  | .str, s => some (.str s)
  | .int, s => (stoi s).map Value.int
  | .float, s => (env.stof s).map Value.float
  | .double, s => (env.stod s).map Value.double
  | .bool, s => (stoi s).map (fun i => Value.bool (decide (i ≠ 0)))

/-! ## Parsing -/

/-- How `parse` can end without returning. -/
inductive Exit where
  | help
  | insufficient
  | invalid_position (cur_arg : String) (position : Nat)
  | no_more_values (name short_name : String) (length : Int)
  | unrecognized (cur_arg : String)
  | conversion_exception (to_parse : String)
  deriving DecidableEq, Repr

/-- The local state of `parse`: the index `idx`, the caller's memory, and the indices of
`args_to_parse` read so far by the two phases (most recent first). -/
structure PState (F D : Type) where
  idx : Nat
  store : Store F D
  reads : List Nat

/-- How a run of `parse` ends.  `out_of_fuel` is an artefact of the model of the `while`
loop and is never produced by `parse` (see `parse_ne_out_of_fuel`). -/
inductive Outcome (F D : Type) where
  | returned (st : PState F D)
  | exited (e : Exit) (st : PState F D)
  | out_of_fuel

/-- The read `args_to_parse[i]`. -/
def read_token {F D : Type} (env : Env F D) (toks : List String) (i : Nat) : String :=
  match toks[i]? with
  | some t => t
  | none => env.junk i

/-- The five pointers handed to `parse_argument`. -/
structure Ptrs where
  str_arg : Option Argument
  int_arg : Option Argument
  float_arg : Option Argument
  double_arg : Option Argument
  bool_arg : Option Argument

/-- The `if ... else if ...` chain of `parse_argument`: the first pointer that is not null,
with its type. -/
def Ptrs.select (p : Ptrs) : Option (Ty × Argument) :=
  match p.str_arg with
  | some a => some (.str, a)
  | none =>
    match p.int_arg with
    | some a => some (.int, a)
    | none =>
      match p.float_arg with
      | some a => some (.float, a)
      | none =>
        match p.double_arg with
        | some a => some (.double, a)
        | none =>
          match p.bool_arg with
          | some a => some (.bool, a)
          | none => none

/-- One iteration of the `for` loop of `parse_arg`, with loop variable `i`:
read `args_to_parse[++idx]`, then `check_validity`, then convert and store. -/
def parse_arg_step {F D : Type} (env : Env F D) (toks : List String) (ty : Ty) (arg : Argument)
    (i : Nat) (st : PState F D) : Except (Exit × PState F D) (PState F D) :=
  let idx := st.idx + 1
  let to_parse := read_token env toks idx
  let st1 : PState F D := { idx := idx, store := st.store, reads := idx :: st.reads }
  if idx ≥ toks.length || starts_dash to_parse then
    .error (.no_more_values arg.name arg.short_name arg.length, st1)
  else
    match conversion_funct env ty to_parse with
    | none => .error (.conversion_exception to_parse, st1)
    | some v => .ok { idx := idx, store := st.store.write (arg.value + i) v, reads := idx :: st.reads }

/-- The `for` loop of `parse_arg`, with `k` iterations left and loop variable `i`. -/
def parse_arg_loop {F D : Type} (env : Env F D) (toks : List String) (ty : Ty) (arg : Argument) :
    Nat → Nat → PState F D → Except (Exit × PState F D) (PState F D)
  | 0, _, st => .ok st
  | k + 1, i, st =>
    match parse_arg_step env toks ty arg i st with
    | .error x => .error x
    | .ok st1 => parse_arg_loop env toks ty arg k (i + 1) st1

/-- The lambda `parse_arg`. -/
def parse_arg {F D : Type} (env : Env F D) (toks : List String) (ty : Ty) (arg : Argument)
    (to_parse : String) (st : PState F D) : Except (Exit × PState F D) (PState F D) :=
  let st1 : PState F D :=
    if arg.length = 0 then
      { idx := st.idx, store := st.store.write arg.value (acceptance_function env ty to_parse),
        reads := st.reads }
    else st
  parse_arg_loop env toks ty arg arg.length.toNat 0 st1

/-- The lambda `parse_argument`. -/
def parse_argument {F D : Type} (env : Env F D) (toks : List String) (to_parse : String)
    (p : Ptrs) (st : PState F D) : Except (Exit × PState F D) (PState F D) :=
  match p.select with
  | some (ty, arg) => parse_arg env toks ty arg to_parse st
  | none => .ok st

/-- The five `find_at_position` calls of the positional phase. -/
def ptrs_at_position (r : ArgParse) (position : Nat) : Ptrs :=
  { str_arg := find_at_position position r.str_args,
    int_arg := find_at_position position r.int_args,
    float_arg := find_at_position position r.float_args,
    double_arg := find_at_position position r.double_args,
    bool_arg := find_at_position position r.bool_args }

/-- The five `find` calls of the named phase. -/
def ptrs_by_name (r : ArgParse) (key : String) : Ptrs :=
  { str_arg := find key r.str_args,
    int_arg := find key r.int_args,
    float_arg := find key r.float_args,
    double_arg := find key r.double_args,
    bool_arg := find key r.bool_args }

/-- One iteration of the positional `for` loop, `idx++` included. -/
def positional_body {F D : Type} (env : Env F D) (r : ArgParse) (toks : List String)
    (position : Nat) (st : PState F D) : Except (Exit × PState F D) (PState F D) :=
  let cur_arg := read_token env toks st.idx
  let st1 : PState F D := { idx := st.idx, store := st.store, reads := st.idx :: st.reads }
  if starts_dash cur_arg then .error (.invalid_position cur_arg position, st1)
  else
    match parse_argument env toks cur_arg (ptrs_at_position r position) st1 with
    | .error x => .error x
    | .ok st2 => .ok { idx := st2.idx + 1, store := st2.store, reads := st2.reads }

/-- The positional phase: `k` iterations left, starting at `position`. -/
def positional_loop {F D : Type} (env : Env F D) (r : ArgParse) (toks : List String) :
    Nat → Nat → PState F D → Except (Exit × PState F D) (PState F D)
  | 0, _, st => .ok st
  | k + 1, position, st =>
    match positional_body env r toks position st with
    | .error x => .error x
    | .ok st1 => positional_loop env r toks k (position + 1) st1

/-- One iteration of the named `while` loop, `idx++` included; it runs when
`idx < n_args`. -/
def named_body {F D : Type} (env : Env F D) (r : ArgParse) (toks : List String)
    (st : PState F D) : Except (Exit × PState F D) (PState F D) :=
  let cur_arg := read_token env toks st.idx
  let st1 : PState F D := { idx := st.idx, store := st.store, reads := st.idx :: st.reads }
  match (ptrs_by_name r cur_arg).select with
  | none => .error (.unrecognized cur_arg, st1)
  | some (ty, arg) =>
    match parse_arg env toks ty arg cur_arg st1 with
    | .error x => .error x
    | .ok st2 => .ok { idx := st2.idx + 1, store := st2.store, reads := st2.reads }

/-- The named phase, `while ( idx < n_args )`, with a bound on the number of iterations. -/
def named_loop {F D : Type} (env : Env F D) (r : ArgParse) (toks : List String) :
    Nat → PState F D → Outcome F D
  | fuel, st =>
    if st.idx < toks.length then
      match fuel with
      | 0 => .out_of_fuel
      | fuel1 + 1 =>
        match named_body env r toks st with
        | .error (e, st1) => .exited e st1
        | .ok st1 => named_loop env r toks fuel1 st1
    else .returned st

/-- The test of the help check on one token. -/
def is_help (t : String) : Bool := t = "--help" || t = "-h"

/-- The method `parse(argc, argv)` for `argv = prog :: toks`, run with the counter
`argparse_num_required = num_required` on the caller memory `store`.  The first
component is the registry afterwards (only `name` is assigned). -/
def parse {F D : Type} (env : Env F D) (num_required : Nat) (r : ArgParse) (prog : String)
    (toks : List String) (store : Store F D) : ArgParse × Outcome F D :=
  let r1 : ArgParse := { r with name := prog }
  let st0 : PState F D := { idx := 0, store := store, reads := [] }
  if toks.any is_help then (r1, .exited .help st0)
  else if toks.length < num_required then (r1, .exited .insufficient st0)
  else if toks.isEmpty then (r1, .returned st0)
  else
    match positional_loop env r1 toks num_required 0 st0 with
    | .error (e, st) => (r1, .exited e st)
    | .ok st => (r1, named_loop env r1 toks toks.length st)

/-! ## Observations on outcomes -/

/-- The exit reason of an outcome, if it is an exit. -/
def Outcome.exit? {F D : Type} : Outcome F D → Option Exit
  | .exited e _ => some e
  | _ => none

/-- The state in which a run ended. -/
def Outcome.state? {F D : Type} : Outcome F D → Option (PState F D)
  | .returned st => some st
  | .exited _ st => some st
  | .out_of_fuel => none

/-- Whether `parse` returned to its caller. -/
def Outcome.is_returned {F D : Type} : Outcome F D → Bool
  | .returned _ => true
  | _ => false

/-- The type of a value. -/
def Value.ty {F D : Type} : Value F D → Ty
  | .str _ => .str
  | .int _ => .int
  | .float _ => .float
  | .double _ => .double
  | .bool _ => .bool

/-- The registry has `key` as a key of one of its five partitions. -/
def is_key (r : ArgParse) (key : String) : Prop :=
  ∃ ty : Ty, key ∈ (r.part ty).map Prod.fst

/-- After `k` iterations of the named loop that all completed, started in `st`. -/
def named_iter {F D : Type} (env : Env F D) (r : ArgParse) (toks : List String) :
    Nat → PState F D → Option (PState F D)
  | 0, st => some st
  | k + 1, st =>
    if st.idx < toks.length then
      match named_body env r toks st with
      | .error _ => none
      | .ok st1 => named_iter env r toks k st1
    else none

/-- The run of `parse` reaches the head of the named loop in state `st` with
`st.idx < n_args`: the named phase examines token `st.idx` as an argument name. -/
def examines {F D : Type} (env : Env F D) (num_required : Nat) (r : ArgParse)
    (toks : List String) (store : Store F D) (st : PState F D) : Prop :=
  toks.any is_help = false ∧ ¬ toks.length < num_required ∧
  ∃ (st0 : PState F D) (k : Nat),
    positional_loop env r toks num_required 0 { idx := 0, store := store, reads := [] }
      = .ok st0 ∧
    named_iter env r toks k st0 = some st ∧ st.idx < toks.length

/-! ## Sample environment and declarations for worked examples -/

/-- An environment without floating point: both conversions throw. -/
def env0 : Env Unit Unit :=
  { stof := fun _ => none, stod := fun _ => none, one_f := (), one_d := (), junk := fun _ => "" }

/-- A caller memory holding empty strings, zeros and `false`. -/
def store0 : Store Unit Unit :=
  { strs := fun _ => "", ints := fun _ => 0, floats := fun _ => (), doubles := fun _ => (),
    bools := fun _ => false }

/-- The statement `args.add( Argument<T>( name, message, value, length ) )`. -/
def declare1 (ty : Ty) (name message : String) (value : Nat) (length : Int)
    (s : ArgParse × Nat) : Option (ArgParse × Nat) :=
  match Argument.ctor1 s.2 name message value length with
  | .error _ => none
  | .ok (a, n) =>
    match add ty a s.1 with
    | .error _ => none
    | .ok r => some (r, n)

/-- The statement `args.add( Argument<T>( short_name, name, message, value, length ) )`. -/
def declare2 (ty : Ty) (short_name name message : String) (value : Nat) (length : Int)
    (s : ArgParse × Nat) : Option (ArgParse × Nat) :=
  match Argument.ctor2 short_name name message value length with
  | .error _ => none
  | .ok a =>
    match add ty a s.1 with
    | .error _ => none
    | .ok r => some (r, s.2)

/-- What a finished run shows of the round-trip example: whether `parse` returned, its
exit reason, and the four cells at the end. -/
structure RoundTripView where
  returned : Bool
  exit : Option Exit
  str : String
  int : Int
  count : Int
  verbose : Bool
  deriving DecidableEq, Repr

/-- The view of an outcome (`none` only for the out-of-fuel artefact). -/
def round_trip_view (out : Outcome Unit Unit) : Option RoundTripView :=
  out.state?.map fun st =>
    { returned := out.is_returned, exit := out.exit?, str := st.store.strs 0,
      int := st.store.ints 0, count := st.store.ints 1, verbose := st.store.bools 0 }

/-- The round-trip registry: a required string at `strs[0]`, a required int at `ints[0]`
declared with length `int_length`, the optional int `--count` of length 1 at `ints[1]`,
and the optional bool `--verbose` (`-v`) of length 0 at `bools[0]`. -/
def round_trip_setup (int_length : Int) : Option (ArgParse × Nat) :=
  (((some (ArgParse.empty, 0)).bind
    (declare1 .str "input" "input file" 0 0)).bind
    (declare1 .int "number" "a number" 0 int_length)).bind
    (declare1 .int "--count" "a count" 1 1) |>.bind
    (declare2 .bool "-v" "--verbose" "be verbose" 0 0)

/-- The tokens of the round-trip example. -/
def round_trip_tokens : List String := ["file.txt", "42", "--count", "7", "--verbose"]

/-- Run the round-trip example. -/
def round_trip_run (int_length : Int) : Option RoundTripView :=
  (round_trip_setup int_length).bind fun s =>
    round_trip_view (parse env0 s.2 s.1 "prog" round_trip_tokens store0).2

/-- An optional argument of length 1 bound to cell 0. -/
def sample_optional (name short_name : String) : Argument :=
  { name := name, short_name := short_name, message := "m", value := 0, required := false,
    positional := -1, length := 1 }

/-- The registry after `add` of the optional int `--x` built by the four-parameter
constructor: it is stored under its name and under its empty short name. -/
def sample_registry : ArgParse :=
  { name := "", description := "", str_args := [],
    int_args := [("--x", sample_optional "--x" ""), ("", sample_optional "--x" "")],
    float_args := [], double_args := [], bool_args := [] }

/-- Token `j` exists and does not begin with `'-'`: what `check_validity` asks of a value. -/
def value_ok (toks : List String) (j : Nat) : Bool :=
  match toks[j]? with
  | some t => !starts_dash t
  | none => false

/-- The `L` tokens after token `i` all exist and none begins with `'-'`. -/
def values_ok (toks : List String) (i L : Nat) : Bool :=
  (List.range L).all fun j => value_ok toks (i + 1 + j)

/-- The number of required arguments stored in the registry. -/
def required_count (r : ArgParse) : Nat :=
  (r.str_args.filter fun p => p.2.required).length +
  (r.int_args.filter fun p => p.2.required).length +
  (r.float_args.filter fun p => p.2.required).length +
  (r.double_args.filter fun p => p.2.required).length +
  (r.bool_args.filter fun p => p.2.required).length

/-- A registry with a single required int, declared with the default length, bound to
`ints[0]`; and the counter after its construction. -/
def positional_int_setup : Option (ArgParse × Nat) :=
  declare1 .int "number" "a number" 0 0 (ArgParse.empty, 0)

/-- Run `parse` on the single token `tok` with the single required int: whether it
returned, and the cell `ints[0]` at the end. -/
def positional_int_run (tok : String) : Option (Bool × Int) :=
  positional_int_setup.bind fun s =>
    let out := (parse env0 s.2 s.1 "prog" [tok] store0).2
    out.state?.map fun st => (out.is_returned, st.store.ints 0)

/-- A registry that registers `--help` itself, as an optional bool flag with the short
name `-h`. -/
def help_registry : ArgParse :=
  { name := "", description := "", str_args := [], int_args := [], float_args := [],
    double_args := [],
    bool_args := [("--help", { name := "--help", short_name := "-h", message := "m",
                               value := 0, required := false, positional := -1, length := 0 }),
                  ("-h", { name := "--help", short_name := "-h", message := "m",
                           value := 0, required := false, positional := -1, length := 0 })] }

/-- A registry with one required string bound to `strs[0]`. -/
def one_required_registry : ArgParse :=
  { name := "", description := "",
    str_args := [("input", { name := "input", short_name := "", message := "m", value := 0,
                             required := true, positional := 0, length := 0 })],
    int_args := [], float_args := [], double_args := [], bool_args := [] }

/-- Every token before index `upto` that begins with `'-'` is a key of the registry. -/
def dash_tokens_known (r : ArgParse) (toks : List String) (upto : Nat) : Prop :=
  ∀ j t, j < upto → toks[j]? = some t → starts_dash t = true → is_key r t

/-- The index at which the named phase stands after the positional phase and `k`
completed iterations of the named loop, if the run gets that far. -/
def named_idx_after {F D : Type} (env : Env F D) (num_required : Nat) (r : ArgParse)
    (toks : List String) (store : Store F D) (k : Nat) : Option Nat :=
  match positional_loop env r toks num_required 0 { idx := 0, store := store, reads := [] } with
  | .ok st0 => (named_iter env r toks k st0).map PState.idx
  | .error _ => none

/-- The bool flag `--verbose` (`-v`) of length 0 bound to `bools[0]`. -/
def verbose_flag : Argument :=
  { name := "--verbose", short_name := "-v", message := "be verbose", value := 0,
    required := false, positional := -1, length := 0 }

/-- An optional int of stored length 2 bound to `ints[0]` and `ints[1]`. -/
def range_argument : Argument :=
  { name := "--range", short_name := "-r", message := "a range", value := 0,
    required := false, positional := -1, length := 2 }

/-- The registry after `add` of `verbose_flag` and of `range_argument`. -/
def flag_registry : ArgParse :=
  { name := "", description := "", str_args := [],
    int_args := [("--range", range_argument), ("-r", range_argument)],
    float_args := [], double_args := [],
    bool_args := [("--verbose", verbose_flag), ("-v", verbose_flag)] }

/-- What a run on a registry with one bool argument bound to `bools[0]` shows: whether
`parse` returned, its exit reason, the final `idx`, and the cell at the end. -/
structure FlagView where
  returned : Bool
  exit : Option Exit
  idx : Nat
  flag : Bool
  deriving DecidableEq, Repr

/-- The statement `args.add( Argument<bool>( "--verbose", message, &flag, 0 ) )` on an empty
registry (four-parameter constructor, declared length 0), then `parse` on `toks`. -/
def declared_zero_run (toks : List String) : Option FlagView :=
  (declare1 .bool "--verbose" "be verbose" 0 0 (ArgParse.empty, 0)).bind fun s =>
    let out := (parse env0 s.2 s.1 "prog" toks store0).2
    out.state?.map fun st =>
      { returned := out.is_returned, exit := out.exit?, idx := st.idx,
        flag := st.store.bools 0 }

/-- The stored length of what a constructor built, if it built something. -/
def built_length (x : Except CtorExit (Argument × Nat)) : Option Int :=
  match x with
  | .ok (a, _) => some a.length
  | .error _ => none

/-- The state in which `parse` starts. -/
def initial_state {F D : Type} (store : Store F D) : PState F D :=
  { idx := 0, store := store, reads := [] }

/-- A sequence of `add` calls, in order; the first conflict ends the process. -/
def add_all : List (Ty × Argument) → ArgParse → Except AddExit ArgParse
  | [], r => .ok r
  | (ty, arg) :: rest, r =>
    match add ty arg r with
    | .error e => .error e
    | .ok r1 => add_all rest r1

/-- A call of one of the two constructors, with its arguments. -/
inductive Decl where
  | four (name message : String) (value : Nat) (length : Int)
  | five (short_name name message : String) (value : Nat) (length : Int)
  deriving DecidableEq, Repr

/-- Run one constructor call with the counter at `n`: the argument built and the counter
afterwards. -/
def construct (n : Nat) : Decl → Except CtorExit (Argument × Nat)
  | .four name message value length => Argument.ctor1 n name message value length
  | .five short_name name message value length =>
    match Argument.ctor2 short_name name message value length with
    | .error e => .error e
    | .ok a => .ok (a, n)

/-- Run a sequence of constructor calls, in order, threading the counter; an `exit` in one
of them ends the process. -/
def construct_all : Nat → List Decl → Except CtorExit (List Argument × Nat)
  | n, [] => .ok ([], n)
  | n, d :: ds =>
    match construct n d with
    | .error e => .error e
    | .ok (a, n1) =>
      match construct_all n1 ds with
      | .error e => .error e
      | .ok (rest, n2) => .ok (a :: rest, n2)

/-- The name a constructor call declares. -/
def Decl.name : Decl → String
  | .four name _ _ _ => name
  | .five _ name _ _ _ => name
/-- The required string `input` as the four-parameter constructor builds it with the
counter at 0: position 0, length 0, bound to `strs[0]`. -/
def input_argument : Argument :=
  { name := "input", short_name := "", message := "m", value := 0, required := true,
    positional := 0, length := 0 }

/-- Four constructor calls: a required string, an optional flag, a required int, an
optional int. -/
def sample_decls : List Decl :=
  [.four "input" "m" 0 0, .five "-v" "--verbose" "be verbose" 0 0, .four "number" "m" 0 0,
   .four "--x" "m" 0 0]

/-- What the four calls of `sample_decls` build from a counter of 0. -/
def sample_built : List Argument :=
  [input_argument, verbose_flag,
   { name := "number", short_name := "", message := "m", value := 0, required := true,
     positional := 1, length := 0 },
   sample_optional "--x" ""]

/-- The registry after `add` of `verbose_flag` alone. -/
def verbose_registry : ArgParse :=
  { name := "", description := "", str_args := [], int_args := [], float_args := [],
    double_args := [], bool_args := [("--verbose", verbose_flag), ("-v", verbose_flag)] }

/-- Two optional arguments of different types, each built by the four-parameter
constructor and registered: the int `--count` and the string `--name`. -/
def two_optional_setup : Option (ArgParse × Nat) :=
  ((some (ArgParse.empty, 0)).bind (declare1 .int "--count" "a count" 0 1)).bind
    (declare1 .str "--name" "a name" 0 1)

/-- The partitions, among string and int, in which `key` is a key after
`two_optional_setup`. -/
def two_optional_has_key (key : String) : Option (Bool × Bool) :=
  two_optional_setup.map fun s =>
    ((find key s.1.str_args).isSome, (find key s.1.int_args).isSome)

/-- What a run shows of the token vector and of the cells `strs[0]`, `strs[1]`: whether
`parse` returned, its exit reason, the indices read by the two phases (most recent first)
and the two cells at the end. -/
structure ReadView where
  returned : Bool
  exit : Option Exit
  reads : List Nat
  str0 : String
  str1 : String
  deriving DecidableEq, Repr

/-- The view of an outcome. -/
def read_view (out : Outcome Unit Unit) : Option ReadView :=
  out.state?.map fun st =>
    { returned := out.is_returned, exit := out.exit?, reads := st.reads,
      str0 := st.store.strs 0, str1 := st.store.strs 1 }

/-- Two required strings: `pair`, declared with length 1 and bound to `strs[0]`, then
`other`, declared with the default length and bound to `strs[1]`. -/
def pair_setup : Option (ArgParse × Nat) :=
  ((some (ArgParse.empty, 0)).bind (declare1 .str "pair" "m" 0 1)).bind
    (declare1 .str "other" "m" 1 0)

/-- Run `parse` on `toks` after `pair_setup`. -/
def pair_run (toks : List String) : Option ReadView :=
  pair_setup.bind fun s => read_view (parse env0 s.2 s.1 "prog" toks store0).2

/-- The local struct `argument_info` of `print_help`. -/
structure argument_info where
  name : String
  short_name : String
  message : String
  type : String
  count : Int
  deriving DecidableEq, Repr

/-- The built-in entry `help_info`. -/
def help_info : argument_info :=
  { name := "--help", short_name := "-h", message := "Show this help message and exit",
    type := "", count := 0 }

/-- The type string handed to `group_arguments` for each partition (the spelling `doule`
is the source's). -/
def type_label : Ty → String
  | .str => "string"
  | .int => "int"
  | .float => "float"
  | .double => "doule"
  | .bool => "bool"

/-- The `argument_info` that `group_arguments` builds from an entry of the partition of
`ty`. -/
def info_of (ty : Ty) (a : Argument) : argument_info :=
  { name := a.name, short_name := a.short_name, message := a.message, type := type_label ty,
    count := a.length }

/-- The call `optional_args_map.insert( std::make_pair( info.name, info ) )`: nothing
happens when the name is already a key. -/
def info_insert (info : argument_info) (m : List (String × argument_info)) :
    List (String × argument_info) :=
  if m.any (fun p => p.1 = info.name) then m else m ++ [(info.name, info)]

/-- The lambda `group_arguments` on one partition, as far as `optional_args_map` goes: an
entry that is not required is inserted under its name; a required one goes to
`required_args` and leaves the map alone. -/
def group_arguments (ty : Ty) (args : Partition) (m : List (String × argument_info)) :
    List (String × argument_info) :=
  match args with
  | [] => m
  | (_, a) :: rest =>
    group_arguments ty rest (if a.required then m else info_insert (info_of ty a) m)

/-- The map `optional_args_map` after the five `group_arguments` calls. -/
def optional_args_map (r : ArgParse) : List (String × argument_info) :=
  group_arguments .bool r.bool_args
    (group_arguments .double r.double_args
      (group_arguments .float r.float_args
        (group_arguments .int r.int_args
          (group_arguments .str r.str_args []))))

/-- The vector `optional_args` before it is sorted: the values of the map, then
`help_info`. -/
def optional_args_unsorted (r : ArgParse) : List argument_info :=
  (optional_args_map r).map Prod.snd ++ [help_info]

/-- The sort key of the comparator: `name.substr( name.find_last_of("-") + 1 )`, the text
after the last `'-'` of the name (the whole name when it has none). -/
def sort_name (name : String) : String :=
  ⟨(name.data.reverse.takeWhile fun c => c != '-').reverse⟩

/-- The comparator handed to `std::sort`: `a_name < b_name`. -/
def info_before (a b : argument_info) : Bool :=
  decide (sort_name a.name < sort_name b.name)

/-- Insert into a list sorted by the comparator. -/
def sorted_insert (x : argument_info) : List argument_info → List argument_info
  | [] => [x]
  | y :: ys => if info_before x y then x :: y :: ys else y :: sorted_insert x ys

/-- The call `std::sort( optional_args.begin(), optional_args.end(), comparator )`, as an
insertion sort. (`std::sort` promises a permutation sorted by the comparator and leaves
the order of entries with equal keys open.) -/
def sort_infos : List argument_info → List argument_info
  | [] => []
  | x :: xs => sorted_insert x (sort_infos xs)

/-- The vector `optional_args` that `print_help` renders. -/
def help_optional_args (r : ArgParse) : List argument_info :=
  sort_infos (optional_args_unsorted r)

/-- A name with its leading dashes stripped. -/
def strip_dashes (name : String) : String :=
  ⟨name.data.dropWhile fun c => c == '-'⟩

/-- The list of names is in non-decreasing order of `key`. -/
def names_sorted_by (key : String → String) : List String → Bool
  | [] => true
  | [_] => true
  | a :: b :: rest => !decide (key b < key a) && names_sorted_by key (b :: rest)

/-- Two optional ints built by the four-parameter constructor and registered: `--a-z` and
`--b-a`. -/
def inner_dash_setup : Option (ArgParse × Nat) :=
  ((some (ArgParse.empty, 0)).bind (declare1 .int "--a-z" "m" 0 1)).bind
    (declare1 .int "--b-a" "m" 1 1)

/-- The names of the optional arguments, in the order in which help renders them after
`inner_dash_setup`. -/
def inner_dash_help_names : Option (List String) :=
  inner_dash_setup.map fun s => (help_optional_args s.1).map fun i => i.name

/-- Every key of the map is the name of its value, and no key occurs twice. -/
def info_map_ok (m : List (String × argument_info)) : Prop :=
  (∀ p, p ∈ m → p.1 = p.2.name) ∧ (m.map Prod.fst).Nodup

/-- The registry holds what the registrations `decls` put in it: every entry carries a
registered argument, every registered argument is stored under its name in the partition
of its type, and no two registered arguments have the same name. -/
def registered (r : ArgParse) (decls : List (Ty × Argument)) : Prop :=
  (∀ ty k a, (k, a) ∈ r.part ty → (ty, a) ∈ decls) ∧
  (∀ ty a, (ty, a) ∈ decls → (a.name, a) ∈ r.part ty) ∧
  (decls.map fun d => d.2.name).Nodup

/-- The entries help is to render for the optional arguments among `decls`. -/
def optional_infos (decls : List (Ty × Argument)) : List argument_info :=
  (decls.filter fun d => !d.2.required).map fun d => info_of d.1 d.2

/-- Three registrations: the required string `input`, the flag `--verbose`, the optional
int `--range`. -/
def mixed_decls : List (Ty × Argument) :=
  [(.str, input_argument), (.bool, verbose_flag), (.int, range_argument)]

/-- The registry the registrations `mixed_decls` leave. -/
def mixed_registry : ArgParse :=
  { name := "", description := "",
    str_args := [("input", input_argument)],
    int_args := [("--range", range_argument), ("-r", range_argument)],
    float_args := [], double_args := [],
    bool_args := [("--verbose", verbose_flag), ("-v", verbose_flag)] }

/-- The cell `addr` belongs to the bound storage that a match of `a` writes: the head cell
when the stored length is 0, the first `length` cells when it is positive. -/
def writes_cell (a : Argument) (addr : Nat) : Bool :=
  (decide (a.length = 0) && decide (addr = a.value)) ||
  (decide (a.value ≤ addr) && decide ((addr : Int) < (a.value : Int) + a.length))

/-- No argument whose bound storage contains the cell `addr` of type `ty` can be matched:
each is stored only under keys that do not occur among the tokens and has no positional
index below the counter. -/
def cell_untouched (num_required : Nat) (r : ArgParse) (toks : List String) (ty : Ty)
    (addr : Nat) : Prop :=
  ∀ k a, (k, a) ∈ r.part ty → writes_cell a addr = true →
    k ∉ toks ∧ ¬ (0 ≤ a.positional ∧ a.positional < (num_required : Int))

/-- The pointer of a type among the five. -/
def Ptrs.get (p : Ptrs) : Ty → Option Argument
  | .str => p.str_arg
  | .int => p.int_arg
  | .float => p.float_arg
  | .double => p.double_arg
  | .bool => p.bool_arg

/-- Two optional ints built by the four-parameter constructor with length 1, `--a` and
`--b`, both bound to the same cell `ints[0]`. -/
def alias_setup : Option (ArgParse × Nat) :=
  ((some (ArgParse.empty, 0)).bind (declare1 .int "--a" "m" 0 1)).bind
    (declare1 .int "--b" "m" 0 1)

/-- Run `parse` on `toks` after `alias_setup`. -/
def alias_run (toks : List String) : Option RoundTripView :=
  alias_setup.bind fun s => round_trip_view (parse env0 s.2 s.1 "prog" toks store0).2

/-- The keys under which `alias_setup` stores an argument named `name`. -/
def alias_keys (name : String) : Option (List String) :=
  alias_setup.map fun s =>
    (s.1.int_args.filter fun p => decide (p.2.name = name)).map Prod.fst

/-! ## Lemmas -/

/-! ### Lookup and keys -/

theorem find_eq_none_iff (key : String) (args : Partition) :
    find key args = none ↔ key ∉ args.map Prod.fst := by
  induction args with
  | nil => simp [find]
  | cons p rest ih =>
    obtain ⟨k, a⟩ := p
    by_cases h : k = key
    · simp [find, h]
    · have h2 : ¬ key = k := fun e => h e.symm
      simp [find, h, h2, ih]

theorem find_isSome_iff (key : String) (args : Partition) :
    (find key args).isSome = true ↔ key ∈ args.map Prod.fst := by
  rw [← not_iff_not, ← find_eq_none_iff]
  cases find key args <;> simp

theorem exists_already_iff (r : ArgParse) (key : String) :
    exists_already r key = true ↔ is_key r key := by
  unfold exists_already is_key
  constructor
  · intro h
    split at h
    · exact ⟨.str, (find_isSome_iff _ _).1 (by assumption)⟩
    · split at h
      · exact ⟨.int, (find_isSome_iff _ _).1 (by assumption)⟩
      · split at h
        · exact ⟨.float, (find_isSome_iff _ _).1 (by assumption)⟩
        · split at h
          · exact ⟨.double, (find_isSome_iff _ _).1 (by assumption)⟩
          · split at h
            · exact ⟨.bool, (find_isSome_iff _ _).1 (by assumption)⟩
            · exact absurd h (by simp)
  · rintro ⟨ty, h⟩
    have h1 := (find_isSome_iff _ _).2 h
    cases ty <;> simp only [ArgParse.part] at h1 <;> simp [h1]

theorem exists_already_eq_false_iff (r : ArgParse) (key : String) :
    exists_already r key = false ↔ ¬ is_key r key := by
  rw [← exists_already_iff]; simp

theorem select_eq_none_iff (r : ArgParse) (key : String) :
    (ptrs_by_name r key).select = none ↔ ¬ is_key r key := by
  rw [← exists_already_eq_false_iff]
  unfold Ptrs.select ptrs_by_name exists_already
  cases find key r.str_args <;> cases find key r.int_args <;> cases find key r.float_args <;>
    cases find key r.double_args <;> cases find key r.bool_args <;> simp

theorem select_some_is_key (r : ArgParse) (key : String) (ty : Ty) (a : Argument)
    (h : (ptrs_by_name r key).select = some (ty, a)) : is_key r key := by
  by_contra hk
  rw [(select_eq_none_iff r key).2 hk] at h
  exact absurd h (by simp)

theorem select_some_find (r : ArgParse) (key : String) (ty : Ty) (a : Argument)
    (h : (ptrs_by_name r key).select = some (ty, a)) : find key (r.part ty) = some a := by
  unfold Ptrs.select ptrs_by_name at h
  simp only at h
  split at h
  · simp only [Option.some.injEq, Prod.mk.injEq] at h
    obtain ⟨rfl, rfl⟩ := h; simpa [ArgParse.part]
  · split at h
    · simp only [Option.some.injEq, Prod.mk.injEq] at h
      obtain ⟨rfl, rfl⟩ := h; simpa [ArgParse.part]
    · split at h
      · simp only [Option.some.injEq, Prod.mk.injEq] at h
        obtain ⟨rfl, rfl⟩ := h; simpa [ArgParse.part]
      · split at h
        · simp only [Option.some.injEq, Prod.mk.injEq] at h
          obtain ⟨rfl, rfl⟩ := h; simpa [ArgParse.part]
        · split at h
          · simp only [Option.some.injEq, Prod.mk.injEq] at h
            obtain ⟨rfl, rfl⟩ := h; simpa [ArgParse.part]
          · exact absurd h (by simp)

theorem find_append (key : String) (xs ys : Partition) :
    find key (xs ++ ys) = match find key xs with
      | some a => some a
      | none => find key ys := by
  induction xs with
  | nil => simp [find]
  | cons p rest ih =>
    obtain ⟨k, a⟩ := p
    by_cases h : k = key
    · simp [find, h]
    · simp [find, h, ih]

theorem find_insert_self (key : String) (a : Argument) (args : Partition)
    (h : find key args = none) : find key (insert key a args) = some a := by
  simp [insert, h, find_append, find]


theorem string_length_eq_zero_iff (s : String) : s.length = 0 ↔ s = "" := by
  cases s with
  | mk data =>
    simp only [String.length]
    constructor
    · intro h
      have : data = [] := List.length_eq_zero.1 h
      subst this; rfl
    · intro h
      have : data = [] := congrArg String.data h
      subst this; rfl

theorem part_set_part_same (r : ArgParse) (ty : Ty) (p : Partition) :
    (r.set_part ty p).part ty = p := by
  cases ty <;> rfl

theorem part_set_part_other (r : ArgParse) (ty ty' : Ty) (p : Partition) (h : ty' ≠ ty) :
    (r.set_part ty p).part ty' = r.part ty' := by
  cases ty <;> cases ty' <;> first | rfl | exact absurd rfl h

theorem find_insert_other (key key' : String) (a : Argument) (args : Partition)
    (h : find key' args ≠ none) : find key' (insert key a args) = find key' args := by
  unfold insert
  split
  · rfl
  · rw [find_append]
    cases hf : find key' args with
    | none => exact absurd hf h
    | some b => rfl

/-! ### Memory -/

theorem conversion_ty {F D : Type} (env : Env F D) (ty : Ty) (s : String) (v : Value F D)
    (h : conversion_funct env ty s = some v) : v.ty = ty := by
  cases ty <;> simp only [conversion_funct, Option.map_eq_some', Option.some.injEq] at h
  · subst h; rfl
  · obtain ⟨_, _, rfl⟩ := h; rfl
  · obtain ⟨_, _, rfl⟩ := h; rfl
  · obtain ⟨_, _, rfl⟩ := h; rfl
  · obtain ⟨_, _, rfl⟩ := h; rfl

theorem acceptance_ty {F D : Type} (env : Env F D) (ty : Ty) (s : String) :
    (acceptance_function env ty s).ty = ty := by
  cases ty <;> rfl

theorem read_write_same {F D : Type} (m : Store F D) (addr : Nat) (v : Value F D) (ty : Ty)
    (h : v.ty = ty) : (m.write addr v).read ty addr = v := by
  subst h
  cases v <;> simp [Store.write, Store.read, Value.ty]

theorem read_write_other {F D : Type} (m : Store F D) (addr addr' : Nat) (v : Value F D)
    (ty' : Ty) (h : v.ty ≠ ty' ∨ addr' ≠ addr) :
    (m.write addr v).read ty' addr' = m.read ty' addr' := by
  cases v <;> cases ty' <;> simp [Store.write, Store.read, Value.ty] at h ⊢ <;>
    intro e <;> exact absurd e h

/-! ### Tokens -/

theorem read_token_of_get {F D : Type} (env : Env F D) (toks : List String) (i : Nat)
    (t : String) (h : toks[i]? = some t) : read_token env toks i = t := by
  simp [read_token, h]

theorem value_ok_iff {F D : Type} (env : Env F D) (toks : List String) (j : Nat) :
    value_ok toks j = true ↔
      j < toks.length ∧ starts_dash (read_token env toks j) = false := by
  unfold value_ok read_token
  cases h : toks[j]? with
  | none =>
    have := List.getElem?_eq_none_iff.1 h
    simp; omega
  | some t =>
    have := (List.getElem?_eq_some.1 h).1
    simp [this]

theorem values_ok_iff (toks : List String) (i L : Nat) :
    values_ok toks i L = true ↔ ∀ j, j < L → value_ok toks (i + 1 + j) = true := by
  simp [values_ok, List.all_eq_true]

/-! ### The value loop of `parse_arg` -/

theorem parse_arg_step_ok {F D : Type} (env : Env F D) (toks : List String) (ty : Ty)
    (arg : Argument) (i : Nat) (st st' : PState F D)
    (h : parse_arg_step env toks ty arg i st = .ok st') :
    value_ok toks (st.idx + 1) = true ∧
    ∃ v, conversion_funct env ty (read_token env toks (st.idx + 1)) = some v ∧
      st' = { idx := st.idx + 1, store := st.store.write (arg.value + i) v,
              reads := (st.idx + 1) :: st.reads } := by
  unfold parse_arg_step at h
  simp only at h
  split at h
  · exact absurd h (by simp)
  · rename_i hc
    simp only [ge_iff_le, Bool.or_eq_true, decide_eq_true_eq, not_or, not_le,
      Bool.not_eq_true] at hc
    refine ⟨(value_ok_iff env toks _).2 hc, ?_⟩
    split at h
    · exact absurd h (by simp)
    · rename_i v hv
      refine ⟨v, hv, ?_⟩
      simp only [Except.ok.injEq] at h
      exact h.symm

theorem parse_arg_step_error {F D : Type} (env : Env F D) (toks : List String) (ty : Ty)
    (arg : Argument) (i : Nat) (st st1 : PState F D) (e : Exit)
    (h : parse_arg_step env toks ty arg i st = .error (e, st1)) :
    st1 = { idx := st.idx + 1, store := st.store, reads := (st.idx + 1) :: st.reads } ∧
    ((e = .no_more_values arg.name arg.short_name arg.length ∧
        value_ok toks (st.idx + 1) = false) ∨
     (e = .conversion_exception (read_token env toks (st.idx + 1)) ∧
        value_ok toks (st.idx + 1) = true ∧
        conversion_funct env ty (read_token env toks (st.idx + 1)) = none)) := by
  unfold parse_arg_step at h
  simp only at h
  split at h
  · rename_i hc
    simp only [Except.error.injEq, Prod.mk.injEq] at h
    refine ⟨h.2.symm, Or.inl ⟨h.1.symm, ?_⟩⟩
    cases hv : value_ok toks (st.idx + 1) with
    | false => rfl
    | true =>
      have := (value_ok_iff env toks _).1 hv
      simp only [ge_iff_le, Bool.or_eq_true, decide_eq_true_eq] at hc
      rcases hc with hc | hc
      · omega
      · rw [this.2] at hc; exact absurd hc (by simp)
  · rename_i hc
    simp only [ge_iff_le, Bool.or_eq_true, decide_eq_true_eq, not_or, not_le,
      Bool.not_eq_true] at hc
    split at h
    · rename_i hv
      simp only [Except.error.injEq, Prod.mk.injEq] at h
      exact ⟨h.2.symm, Or.inr ⟨h.1.symm, (value_ok_iff env toks _).2 hc, hv⟩⟩
    · exact absurd h (by simp)

theorem parse_arg_step_not_ok {F D : Type} (env : Env F D) (toks : List String) (ty : Ty)
    (arg : Argument) (i : Nat) (st : PState F D)
    (h : value_ok toks (st.idx + 1) = false) :
    parse_arg_step env toks ty arg i st =
      .error (.no_more_values arg.name arg.short_name arg.length,
        { idx := st.idx + 1, store := st.store, reads := (st.idx + 1) :: st.reads }) := by
  cases hs : parse_arg_step env toks ty arg i st with
  | ok st' =>
    have := (parse_arg_step_ok env toks ty arg i st st' hs).1
    rw [h] at this; exact absurd this (by simp)
  | error x =>
    obtain ⟨e, st1⟩ := x
    obtain ⟨h1, h2⟩ := parse_arg_step_error env toks ty arg i st st1 e hs
    rcases h2 with ⟨he, _⟩ | ⟨_, hv, _⟩
    · rw [he, h1]
    · rw [h] at hv; exact absurd hv (by simp)

theorem parse_arg_step_of_conv {F D : Type} (env : Env F D) (toks : List String) (ty : Ty)
    (arg : Argument) (i : Nat) (st : PState F D) (v : Value F D)
    (h : value_ok toks (st.idx + 1) = true)
    (hv : conversion_funct env ty (read_token env toks (st.idx + 1)) = some v) :
    parse_arg_step env toks ty arg i st =
      .ok { idx := st.idx + 1, store := st.store.write (arg.value + i) v,
            reads := (st.idx + 1) :: st.reads } := by
  cases hs : parse_arg_step env toks ty arg i st with
  | ok st' =>
    obtain ⟨_, v', hv', rfl⟩ := parse_arg_step_ok env toks ty arg i st st' hs
    rw [hv] at hv'
    simp only [Option.some.injEq] at hv'
    subst hv'; rfl
  | error x =>
    obtain ⟨e, st1⟩ := x
    obtain ⟨_, h2⟩ := parse_arg_step_error env toks ty arg i st st1 e hs
    rcases h2 with ⟨_, hf⟩ | ⟨_, _, hn⟩
    · rw [h] at hf; exact absurd hf (by simp)
    · rw [hv] at hn; exact absurd hn (by simp)

theorem parse_arg_loop_ok {F D : Type} (env : Env F D) (toks : List String) (ty : Ty)
    (arg : Argument) :
    ∀ (k i : Nat) (st st' : PState F D),
      parse_arg_loop env toks ty arg k i st = .ok st' →
      st'.idx = st.idx + k ∧
      (∀ j, j < k → value_ok toks (st.idx + 1 + j) = true) ∧
      (∀ j, j < k → conversion_funct env ty (read_token env toks (st.idx + 1 + j)) =
          some (st'.store.read ty (arg.value + i + j))) ∧
      (∀ ty' addr, (ty' ≠ ty ∨ addr < arg.value + i ∨ arg.value + i + k ≤ addr) →
          st'.store.read ty' addr = st.store.read ty' addr) := by
  intro k
  induction k with
  | zero =>
    intro i st st' h
    simp only [parse_arg_loop, Except.ok.injEq] at h
    subst h
    simp
  | succ k ih =>
    intro i st st' h
    rw [parse_arg_loop] at h
    cases hs : parse_arg_step env toks ty arg i st with
    | error x => rw [hs] at h; exact absurd h (by simp)
    | ok st1 =>
      rw [hs] at h
      simp only at h
      obtain ⟨hv, v, hconv, rfl⟩ := parse_arg_step_ok env toks ty arg i st st1 hs
      obtain ⟨h1, h2, h3, h4⟩ := ih (i + 1) _ st' h
      simp only at h1 h2 h3 h4
      have hvty := conversion_ty env ty _ v hconv
      have hcell : st'.store.read ty (arg.value + i) = v := by
        rw [h4 ty (arg.value + i) (Or.inr (Or.inl (by omega)))]
        exact read_write_same _ _ _ _ hvty
      refine ⟨by omega, ?_, ?_, ?_⟩
      · intro j hj
        cases j with
        | zero => simpa using hv
        | succ j =>
          have := h2 j (by omega)
          rwa [show st.idx + 1 + (j + 1) = st.idx + 1 + 1 + j by omega]
      · intro j hj
        cases j with
        | zero => simpa [hcell] using hconv
        | succ j =>
          have := h3 j (by omega)
          rwa [show st.idx + 1 + (j + 1) = st.idx + 1 + 1 + j by omega,
            show arg.value + i + (j + 1) = arg.value + (i + 1) + j by omega]
      · intro ty' addr hfr
        rw [h4 ty' addr (by
          rcases hfr with hfr | hfr | hfr
          · exact Or.inl hfr
          · exact Or.inr (Or.inl (by omega))
          · exact Or.inr (Or.inr (by omega)))]
        apply read_write_other
        rcases hfr with hfr | hfr | hfr
        · left; rw [hvty]; exact fun e => hfr e.symm
        · right; omega
        · right; omega

theorem parse_arg_loop_ok_reads {F D : Type} (env : Env F D) (toks : List String) (ty : Ty)
    (arg : Argument) :
    ∀ (k i : Nat) (st st' : PState F D),
      parse_arg_loop env toks ty arg k i st = .ok st' →
      ∀ j, j ∈ st'.reads → j ∈ st.reads ∨ (st.idx < j ∧ j ≤ st.idx + k) := by
  intro k
  induction k with
  | zero =>
    intro i st st' h
    simp only [parse_arg_loop, Except.ok.injEq] at h
    subst h
    intro j hj; exact Or.inl hj
  | succ k ih =>
    intro i st st' h j hj
    rw [parse_arg_loop] at h
    cases hs : parse_arg_step env toks ty arg i st with
    | error x => rw [hs] at h; exact absurd h (by simp)
    | ok st1 =>
      rw [hs] at h
      simp only at h
      obtain ⟨_, v, _, rfl⟩ := parse_arg_step_ok env toks ty arg i st st1 hs
      rcases ih (i + 1) _ st' h j hj with h1 | h1
      · simp only [List.mem_cons] at h1
        rcases h1 with h1 | h1
        · right; omega
        · exact Or.inl h1
      · simp only at h1; right; omega

/-- When one of the `k` tokens is missing or begins with `'-'`, the loop does not complete:
it ends in the "no more values" exit, or, before reaching that token, in the exception of
a conversion. -/
theorem parse_arg_loop_bad {F D : Type} (env : Env F D) (toks : List String) (ty : Ty)
    (arg : Argument) :
    ∀ (k i : Nat) (st : PState F D),
      (∃ j, j < k ∧ value_ok toks (st.idx + 1 + j) = false) →
      ∃ e st1, parse_arg_loop env toks ty arg k i st = .error (e, st1) ∧
        (e = .no_more_values arg.name arg.short_name arg.length ∨
          ∃ j, j < k ∧ value_ok toks (st.idx + 1 + j) = true ∧
            conversion_funct env ty (read_token env toks (st.idx + 1 + j)) = none ∧
            e = .conversion_exception (read_token env toks (st.idx + 1 + j))) := by
  intro k
  induction k with
  | zero => intro i st ⟨j, hj, _⟩; omega
  | succ k ih =>
    intro i st hbad
    rw [parse_arg_loop]
    cases hs : parse_arg_step env toks ty arg i st with
    | error x =>
      obtain ⟨e, st1⟩ := x
      obtain ⟨_, h2⟩ := parse_arg_step_error env toks ty arg i st st1 e hs
      refine ⟨e, st1, rfl, ?_⟩
      rcases h2 with ⟨he, _⟩ | ⟨he, hv, hn⟩
      · exact Or.inl he
      · exact Or.inr ⟨0, by omega, by simpa using hv, by simpa using hn, by simpa using he⟩
    | ok st1 =>
      obtain ⟨hv, v, _, rfl⟩ := parse_arg_step_ok env toks ty arg i st st1 hs
      obtain ⟨j, hj, hjb⟩ := hbad
      have hj0 : j ≠ 0 := by
        rintro rfl
        rw [show st.idx + 1 + 0 = st.idx + 1 by omega, hv] at hjb
        exact absurd hjb (by simp)
      obtain ⟨j', rfl⟩ := Nat.exists_eq_succ_of_ne_zero hj0
      obtain ⟨e, st2, h1, h2⟩ := ih (i + 1)
        { idx := st.idx + 1, store := st.store.write (arg.value + i) v,
          reads := (st.idx + 1) :: st.reads }
        ⟨j', by omega, by
          simp only
          rwa [show st.idx + 1 + 1 + j' = st.idx + 1 + (j' + 1) by omega]⟩
      refine ⟨e, st2, h1, ?_⟩
      rcases h2 with h2 | ⟨j2, hj2, ha, hb, hc⟩
      · exact Or.inl h2
      · simp only at ha hb hc
        rw [show st.idx + 1 + 1 + j2 = st.idx + 1 + (j2 + 1) by omega] at ha hb hc
        exact Or.inr ⟨j2 + 1, by omega, ha, hb, hc⟩

/-- When every conversion succeeds on the `k` tokens, which are all present and free of a
leading dash, the loop completes. -/
theorem parse_arg_loop_good {F D : Type} (env : Env F D) (toks : List String) (ty : Ty)
    (arg : Argument) :
    ∀ (k i : Nat) (st : PState F D),
      (∀ j, j < k → value_ok toks (st.idx + 1 + j) = true) →
      (∀ j, j < k → conversion_funct env ty (read_token env toks (st.idx + 1 + j)) ≠ none) →
      ∃ st', parse_arg_loop env toks ty arg k i st = .ok st' := by
  intro k
  induction k with
  | zero => intro i st _ _; exact ⟨st, rfl⟩
  | succ k ih =>
    intro i st hv hc
    rw [parse_arg_loop]
    have hv0 := hv 0 (by omega)
    have hc0 := hc 0 (by omega)
    rw [show st.idx + 1 + 0 = st.idx + 1 by omega] at hv0 hc0
    cases hconv : conversion_funct env ty (read_token env toks (st.idx + 1)) with
    | none => exact absurd hconv hc0
    | some v =>
      rw [parse_arg_step_of_conv env toks ty arg i st v hv0 hconv]
      apply ih
      · intro j hj
        have := hv (j + 1) (by omega)
        simp only
        rwa [show st.idx + 1 + 1 + j = st.idx + 1 + (j + 1) by omega]
      · intro j hj
        have := hc (j + 1) (by omega)
        simp only
        rwa [show st.idx + 1 + 1 + j = st.idx + 1 + (j + 1) by omega]

/-- The loop never touches memory before it fails: a failed run leaves cells outside the
argument's slots alone. -/
theorem parse_arg_loop_error_frame {F D : Type} (env : Env F D) (toks : List String) (ty : Ty)
    (arg : Argument) :
    ∀ (k i : Nat) (st st1 : PState F D) (e : Exit),
      parse_arg_loop env toks ty arg k i st = .error (e, st1) →
      ∀ ty' addr, (ty' ≠ ty ∨ addr < arg.value + i ∨ arg.value + i + k ≤ addr) →
          st1.store.read ty' addr = st.store.read ty' addr := by
  intro k
  induction k with
  | zero => intro i st st1 e h; simp [parse_arg_loop] at h
  | succ k ih =>
    intro i st st1 e h ty' addr hfr
    rw [parse_arg_loop] at h
    cases hs : parse_arg_step env toks ty arg i st with
    | error x =>
      rw [hs] at h
      simp only [Except.error.injEq] at h
      subst h
      obtain ⟨h1, _⟩ := parse_arg_step_error env toks ty arg i st st1 e hs
      rw [h1]
    | ok st2 =>
      rw [hs] at h
      simp only at h
      obtain ⟨_, v, hconv, rfl⟩ := parse_arg_step_ok env toks ty arg i st st2 hs
      rw [ih (i + 1) _ st1 e h ty' addr (by
        rcases hfr with hfr | hfr | hfr
        · exact Or.inl hfr
        · exact Or.inr (Or.inl (by omega))
        · exact Or.inr (Or.inr (by omega)))]
      apply read_write_other
      have hvty := conversion_ty env ty _ v hconv
      rcases hfr with hfr | hfr | hfr
      · left; rw [hvty]; exact fun e => hfr e.symm
      · right; omega
      · right; omega

/-! ### `parse_arg` and the loop bodies -/

theorem parse_arg_flag {F D : Type} (env : Env F D) (toks : List String) (ty : Ty)
    (arg : Argument) (to_parse : String) (st : PState F D) (h : arg.length = 0) :
    parse_arg env toks ty arg to_parse st =
      .ok { idx := st.idx,
            store := st.store.write arg.value (acceptance_function env ty to_parse),
            reads := st.reads } := by
  simp [parse_arg, h, parse_arg_loop]

theorem parse_arg_values {F D : Type} (env : Env F D) (toks : List String) (ty : Ty)
    (arg : Argument) (to_parse : String) (st : PState F D) (h : arg.length ≠ 0) :
    parse_arg env toks ty arg to_parse st =
      parse_arg_loop env toks ty arg arg.length.toNat 0 st := by
  simp [parse_arg, h]

theorem parse_arg_ok_idx {F D : Type} (env : Env F D) (toks : List String) (ty : Ty)
    (arg : Argument) (to_parse : String) (st st' : PState F D)
    (h : parse_arg env toks ty arg to_parse st = .ok st') :
    st'.idx = st.idx + arg.length.toNat ∧
    ∀ j, j < arg.length.toNat → value_ok toks (st.idx + 1 + j) = true := by
  by_cases hl : arg.length = 0
  · rw [parse_arg_flag env toks ty arg to_parse st hl] at h
    simp only [Except.ok.injEq] at h
    subst h
    simp [hl]
  · rw [parse_arg_values env toks ty arg to_parse st hl] at h
    obtain ⟨h1, h2, _, _⟩ := parse_arg_loop_ok env toks ty arg _ _ _ _ h
    exact ⟨h1, h2⟩

theorem named_body_unrecognized {F D : Type} (env : Env F D) (r : ArgParse)
    (toks : List String) (st : PState F D)
    (h : (ptrs_by_name r (read_token env toks st.idx)).select = none) :
    named_body env r toks st =
      .error (.unrecognized (read_token env toks st.idx),
        { idx := st.idx, store := st.store, reads := st.idx :: st.reads }) := by
  simp [named_body, h]

theorem named_body_matched {F D : Type} (env : Env F D) (r : ArgParse)
    (toks : List String) (st : PState F D) (ty : Ty) (arg : Argument)
    (h : (ptrs_by_name r (read_token env toks st.idx)).select = some (ty, arg)) :
    named_body env r toks st =
      match parse_arg env toks ty arg (read_token env toks st.idx)
          { idx := st.idx, store := st.store, reads := st.idx :: st.reads } with
      | .error x => .error x
      | .ok st2 => .ok { idx := st2.idx + 1, store := st2.store, reads := st2.reads } := by
  simp [named_body, h]

/-- A completed iteration of the named loop matched the current token to a key, read the
following `length` tokens as values, and moved `idx` past them. -/
theorem named_body_ok {F D : Type} (env : Env F D) (r : ArgParse)
    (toks : List String) (st st' : PState F D) (h : named_body env r toks st = .ok st') :
    ∃ ty arg, (ptrs_by_name r (read_token env toks st.idx)).select = some (ty, arg) ∧
      st'.idx = st.idx + 1 + arg.length.toNat ∧
      ∀ j, j < arg.length.toNat → value_ok toks (st.idx + 1 + j) = true := by
  cases hsel : (ptrs_by_name r (read_token env toks st.idx)).select with
  | none =>
    rw [named_body_unrecognized env r toks st hsel] at h
    exact absurd h (by simp)
  | some p =>
    obtain ⟨ty, arg⟩ := p
    rw [named_body_matched env r toks st ty arg hsel] at h
    refine ⟨ty, arg, rfl, ?_⟩
    split at h
    · exact absurd h (by simp)
    · rename_i st2 hp
      simp only [Except.ok.injEq] at h
      subst h
      obtain ⟨h1, h2⟩ := parse_arg_ok_idx env toks ty arg _ _ _ hp
      simp only at h1 h2 ⊢
      exact ⟨by omega, h2⟩

theorem named_body_ok_idx_lt {F D : Type} (env : Env F D) (r : ArgParse)
    (toks : List String) (st st' : PState F D) (h : named_body env r toks st = .ok st') :
    st.idx < st'.idx := by
  obtain ⟨_, _, _, h1, _⟩ := named_body_ok env r toks st st' h
  omega

/-! ### The named loop -/

theorem named_loop_done {F D : Type} (env : Env F D) (r : ArgParse) (toks : List String)
    (fuel : Nat) (st : PState F D) (h : ¬ st.idx < toks.length) :
    named_loop env r toks fuel st = .returned st := by
  unfold named_loop
  simp [h]

theorem named_loop_step_error {F D : Type} (env : Env F D) (r : ArgParse) (toks : List String)
    (fuel : Nat) (st st1 : PState F D) (e : Exit) (h : st.idx < toks.length)
    (hb : named_body env r toks st = .error (e, st1)) :
    named_loop env r toks (fuel + 1) st = .exited e st1 := by
  rw [named_loop]
  simp [h, hb]

theorem named_loop_step_ok {F D : Type} (env : Env F D) (r : ArgParse) (toks : List String)
    (fuel : Nat) (st st1 : PState F D) (h : st.idx < toks.length)
    (hb : named_body env r toks st = .ok st1) :
    named_loop env r toks (fuel + 1) st = named_loop env r toks fuel st1 := by
  rw [named_loop]
  simp [h, hb]

/-- The bound on the iterations of the `while` loop is never reached, and the result does
not depend on it, once it is at least the number of tokens left. -/
theorem named_loop_fuel {F D : Type} (env : Env F D) (r : ArgParse) (toks : List String) :
    ∀ (fuel : Nat) (st : PState F D), toks.length - st.idx ≤ fuel →
      named_loop env r toks fuel st ≠ .out_of_fuel ∧
      ∀ fuel', toks.length - st.idx ≤ fuel' →
        named_loop env r toks fuel' st = named_loop env r toks fuel st := by
  intro fuel
  induction fuel with
  | zero =>
    intro st h
    have hd : ¬ st.idx < toks.length := by omega
    refine ⟨by rw [named_loop_done env r toks 0 st hd]; simp, ?_⟩
    intro fuel' _
    rw [named_loop_done env r toks 0 st hd, named_loop_done env r toks fuel' st hd]
  | succ fuel ih =>
    intro st h
    by_cases hd : st.idx < toks.length
    · cases hb : named_body env r toks st with
      | error x =>
        obtain ⟨e, st1⟩ := x
        refine ⟨by rw [named_loop_step_error env r toks fuel st st1 e hd hb]; simp, ?_⟩
        intro fuel' hf
        obtain ⟨f, rfl⟩ : ∃ f, fuel' = f + 1 := ⟨fuel' - 1, by omega⟩
        rw [named_loop_step_error env r toks fuel st st1 e hd hb,
          named_loop_step_error env r toks f st st1 e hd hb]
      | ok st1 =>
        have hlt := named_body_ok_idx_lt env r toks st st1 hb
        obtain ⟨h1, h2⟩ := ih st1 (by omega)
        refine ⟨by rw [named_loop_step_ok env r toks fuel st st1 hd hb]; exact h1, ?_⟩
        intro fuel' hf
        obtain ⟨f, rfl⟩ : ∃ f, fuel' = f + 1 := ⟨fuel' - 1, by omega⟩
        rw [named_loop_step_ok env r toks fuel st st1 hd hb,
          named_loop_step_ok env r toks f st st1 hd hb]
        exact h2 f (by omega)
    · refine ⟨by rw [named_loop_done env r toks _ st hd]; simp, ?_⟩
      intro fuel' _
      rw [named_loop_done env r toks (fuel + 1) st hd, named_loop_done env r toks fuel' st hd]

theorem named_iter_idx_le {F D : Type} (env : Env F D) (r : ArgParse) (toks : List String) :
    ∀ (k : Nat) (st0 st : PState F D), named_iter env r toks k st0 = some st →
      st0.idx ≤ st.idx := by
  intro k
  induction k with
  | zero =>
    intro st0 st h
    simp only [named_iter, Option.some.injEq] at h
    subst h; exact Nat.le_refl _
  | succ k ih =>
    intro st0 st h
    rw [named_iter] at h
    split at h
    · cases hb : named_body env r toks st0 with
      | error x => rw [hb] at h; exact absurd h (by simp)
      | ok st1 =>
        rw [hb] at h
        have := ih st1 st h
        have := named_body_ok_idx_lt env r toks st0 st1 hb
        omega
    · exact absurd h (by simp)

/-- Running the loop from a state the iterations reach gives the result of the whole loop. -/
theorem named_loop_of_iter {F D : Type} (env : Env F D) (r : ArgParse) (toks : List String) :
    ∀ (k : Nat) (st0 st : PState F D), named_iter env r toks k st0 = some st →
      ∀ fuel, toks.length - st0.idx ≤ fuel →
        named_loop env r toks fuel st0 = named_loop env r toks (toks.length - st.idx) st := by
  intro k
  induction k with
  | zero =>
    intro st0 st h fuel hf
    simp only [named_iter, Option.some.injEq] at h
    subst h
    exact (named_loop_fuel env r toks _ st0 (Nat.le_refl _)).2 fuel hf
  | succ k ih =>
    intro st0 st h fuel hf
    rw [named_iter] at h
    split at h
    · rename_i hd
      cases hb : named_body env r toks st0 with
      | error x => rw [hb] at h; exact absurd h (by simp)
      | ok st1 =>
        rw [hb] at h
        have hlt := named_body_ok_idx_lt env r toks st0 st1 hb
        obtain ⟨f, rfl⟩ : ∃ f, fuel = f + 1 := ⟨fuel - 1, by omega⟩
        rw [named_loop_step_ok env r toks f st0 st1 hd hb]
        exact ih st1 st h f (by omega)
    · exact absurd h (by simp)

theorem named_iter_snoc {F D : Type} (env : Env F D) (r : ArgParse) (toks : List String) :
    ∀ (k : Nat) (st0 st st' : PState F D), named_iter env r toks k st0 = some st →
      st.idx < toks.length → named_body env r toks st = .ok st' →
      named_iter env r toks (k + 1) st0 = some st' := by
  intro k
  induction k with
  | zero =>
    intro st0 st st' h hd hb
    simp only [named_iter, Option.some.injEq] at h
    subst h
    simp [named_iter, hd, hb]
  | succ k ih =>
    intro st0 st st' h hd hb
    rw [named_iter] at h
    split at h
    · rename_i hd0
      cases hb0 : named_body env r toks st0 with
      | error x => rw [hb0] at h; exact absurd h (by simp)
      | ok st1 =>
        rw [hb0] at h
        have := ih st1 st st' h hd hb
        rw [named_iter]
        simp only [hd0, if_true, hb0]
        exact this
    · exact absurd h (by simp)

/-! ### The run of `parse` -/

theorem named_body_with_name {F D : Type} (env : Env F D) (r : ArgParse) (prog : String)
    (toks : List String) (st : PState F D) :
    named_body env { r with name := prog } toks st = named_body env r toks st := rfl

theorem positional_body_with_name {F D : Type} (env : Env F D) (r : ArgParse) (prog : String)
    (toks : List String) (position : Nat) (st : PState F D) :
    positional_body env { r with name := prog } toks position st =
      positional_body env r toks position st := rfl

theorem positional_loop_with_name {F D : Type} (env : Env F D) (r : ArgParse) (prog : String)
    (toks : List String) :
    ∀ (k position : Nat) (st : PState F D),
      positional_loop env { r with name := prog } toks k position st =
        positional_loop env r toks k position st := by
  intro k
  induction k with
  | zero => intro position st; rfl
  | succ k ih =>
    intro position st
    rw [positional_loop, positional_loop, positional_body_with_name]
    cases positional_body env r toks position st with
    | error x => rfl
    | ok st1 => exact ih _ _

theorem named_loop_with_name {F D : Type} (env : Env F D) (r : ArgParse) (prog : String)
    (toks : List String) :
    ∀ (fuel : Nat) (st : PState F D),
      named_loop env { r with name := prog } toks fuel st = named_loop env r toks fuel st := by
  intro fuel
  induction fuel with
  | zero => intro st; rw [named_loop, named_loop]
  | succ fuel ih =>
    intro st
    rw [named_loop, named_loop, named_body_with_name]
    split
    · cases named_body env r toks st with
      | error x => rfl
      | ok st1 => exact ih _
    · rfl

/-- The run of `parse`, with the loops run on the registry as given. -/
theorem parse_outcome {F D : Type} (env : Env F D) (num_required : Nat) (r : ArgParse)
    (prog : String) (toks : List String) (store : Store F D) :
    (parse env num_required r prog toks store).2 =
      if toks.any is_help then .exited .help { idx := 0, store := store, reads := [] }
      else if toks.length < num_required then
        .exited .insufficient { idx := 0, store := store, reads := [] }
      else if toks.isEmpty then .returned { idx := 0, store := store, reads := [] }
      else
        match positional_loop env r toks num_required 0
            { idx := 0, store := store, reads := [] } with
        | .error (e, st) => .exited e st
        | .ok st => named_loop env r toks toks.length st := by
  unfold parse
  simp only
  split
  · rfl
  · split
    · rfl
    · split
      · rfl
      · rw [positional_loop_with_name]
        cases positional_loop env r toks num_required 0
            { idx := 0, store := store, reads := [] } with
        | error x => rfl
        | ok st => exact named_loop_with_name env r prog toks _ _

theorem parse_registry {F D : Type} (env : Env F D) (num_required : Nat) (r : ArgParse)
    (prog : String) (toks : List String) (store : Store F D) :
    (parse env num_required r prog toks store).1 = { r with name := prog } := by
  unfold parse
  simp only
  split
  · rfl
  · split
    · rfl
    · split
      · rfl
      · cases positional_loop env { r with name := prog } toks num_required 0
            { idx := 0, store := store, reads := [] } with
        | error x => rfl
        | ok st => rfl

/-- The model of `parse` always ends as the code does: it returns or exits. -/
theorem parse_ne_out_of_fuel {F D : Type} (env : Env F D) (num_required : Nat) (r : ArgParse)
    (prog : String) (toks : List String) (store : Store F D) :
    (parse env num_required r prog toks store).2 ≠ .out_of_fuel := by
  rw [parse_outcome]
  split
  · simp
  · split
    · simp
    · split
      · simp
      · cases positional_loop env r toks num_required 0
            { idx := 0, store := store, reads := [] } with
        | error x => simp
        | ok st => exact (named_loop_fuel env r toks _ st (by omega)).1

theorem parse_of_examines {F D : Type} (env : Env F D) (num_required : Nat) (r : ArgParse)
    (prog : String) (toks : List String) (store : Store F D) (st : PState F D)
    (h : examines env num_required r toks store st) :
    (parse env num_required r prog toks store).2 =
      named_loop env r toks (toks.length - st.idx) st := by
  obtain ⟨hhelp, hnum, st0, k, hpos, hiter, hlt⟩ := h
  have hne : toks.isEmpty = false := by
    cases toks with
    | nil => simp at hlt
    | cons _ _ => rfl
  rw [parse_outcome]
  simp only [hhelp, hnum, hne, Bool.false_eq_true, if_false, hpos]
  exact named_loop_of_iter env r toks k st0 st hiter _ (by omega)

/-- When the named phase examines a token and the iteration exits, so does `parse`. -/
theorem parse_exits_of_examines {F D : Type} (env : Env F D) (num_required : Nat)
    (r : ArgParse) (prog : String) (toks : List String) (store : Store F D)
    (st st1 : PState F D) (e : Exit) (h : examines env num_required r toks store st)
    (hb : named_body env r toks st = .error (e, st1)) :
    (parse env num_required r prog toks store).2 = .exited e st1 := by
  rw [parse_of_examines env num_required r prog toks store st h]
  have hlt : st.idx < toks.length := by
    obtain ⟨_, _, _, _, _, _, hlt⟩ := h
    exact hlt
  obtain ⟨f, hf⟩ : ∃ f, toks.length - st.idx = f + 1 := ⟨toks.length - st.idx - 1, by omega⟩
  rw [hf]
  exact named_loop_step_error env r toks f st st1 e hlt hb

/-- When the iteration completes, the token examined next is the one at the new `idx`. -/
theorem examines_next {F D : Type} (env : Env F D) (num_required : Nat)
    (r : ArgParse) (toks : List String) (store : Store F D)
    (st st' : PState F D) (h : examines env num_required r toks store st)
    (hb : named_body env r toks st = .ok st') (hn : st'.idx < toks.length) :
    examines env num_required r toks store st' := by
  obtain ⟨hhelp, hnum, st0, k, hpos, hiter, hlt⟩ := h
  exact ⟨hhelp, hnum, st0, k + 1, hpos, named_iter_snoc env r toks k st0 st st' hiter hlt hb, hn⟩

/-- When the iteration completes past the last token, `parse` returns. -/
theorem parse_returns_of_examines {F D : Type} (env : Env F D) (num_required : Nat)
    (r : ArgParse) (prog : String) (toks : List String) (store : Store F D)
    (st st' : PState F D) (h : examines env num_required r toks store st)
    (hb : named_body env r toks st = .ok st') (hn : ¬ st'.idx < toks.length) :
    (parse env num_required r prog toks store).2 = .returned st' := by
  rw [parse_of_examines env num_required r prog toks store st h]
  have hlt : st.idx < toks.length := by
    obtain ⟨_, _, _, _, _, _, hlt⟩ := h
    exact hlt
  obtain ⟨f, hf⟩ : ∃ f, toks.length - st.idx = f + 1 := ⟨toks.length - st.idx - 1, by omega⟩
  rw [hf, named_loop_step_ok env r toks f st st' hlt hb]
  exact named_loop_done env r toks f st' hn

/-! ### Tokens that begin with a dash are never skipped -/

theorem value_ok_not_dash (toks : List String) (j : Nat) (t : String)
    (h : value_ok toks j = true) (ht : toks[j]? = some t) : starts_dash t = false := by
  unfold value_ok at h
  rw [ht] at h
  simpa using h

theorem dash_tokens_known_consume (r : ArgParse) (toks : List String) (i L : Nat)
    (hinv : dash_tokens_known r toks i)
    (hcur : ∀ t, toks[i]? = some t → starts_dash t = true → is_key r t)
    (hvals : ∀ j, j < L → value_ok toks (i + 1 + j) = true) :
    dash_tokens_known r toks (i + 1 + L) := by
  intro j t hj ht hd
  by_cases h1 : j < i
  · exact hinv j t h1 ht hd
  · by_cases h2 : j = i
    · subst h2; exact hcur t ht hd
    · have hv := hvals (j - (i + 1)) (by omega)
      rw [show i + 1 + (j - (i + 1)) = j by omega] at hv
      rw [value_ok_not_dash toks j t hv ht] at hd
      exact absurd hd (by simp)

theorem positional_body_ok {F D : Type} (env : Env F D) (r : ArgParse) (toks : List String)
    (position : Nat) (st st' : PState F D)
    (h : positional_body env r toks position st = .ok st') :
    starts_dash (read_token env toks st.idx) = false ∧
    ∃ L, st'.idx = st.idx + 1 + L ∧ ∀ j, j < L → value_ok toks (st.idx + 1 + j) = true := by
  unfold positional_body at h
  simp only at h
  split at h
  · exact absurd h (by simp)
  · rename_i hd
    refine ⟨by simpa using hd, ?_⟩
    split at h
    · exact absurd h (by simp)
    · rename_i st2 hp
      simp only [Except.ok.injEq] at h
      subst h
      unfold parse_argument at hp
      split at hp
      · rename_i ty arg _
        obtain ⟨h1, h2⟩ := parse_arg_ok_idx env toks ty arg _ _ _ hp
        simp only at h1 h2 ⊢
        exact ⟨arg.length.toNat, by omega, h2⟩
      · simp only [Except.ok.injEq] at hp
        subst hp
        exact ⟨0, rfl, fun j hj => absurd hj (by omega)⟩

theorem positional_loop_known {F D : Type} (env : Env F D) (r : ArgParse)
    (toks : List String) :
    ∀ (k position : Nat) (st st' : PState F D),
      positional_loop env r toks k position st = .ok st' →
      dash_tokens_known r toks st.idx → dash_tokens_known r toks st'.idx := by
  intro k
  induction k with
  | zero =>
    intro position st st' h hinv
    simp only [positional_loop, Except.ok.injEq] at h
    subst h; exact hinv
  | succ k ih =>
    intro position st st' h hinv
    rw [positional_loop] at h
    cases hb : positional_body env r toks position st with
    | error x => rw [hb] at h; exact absurd h (by simp)
    | ok st1 =>
      rw [hb] at h
      obtain ⟨hd, L, hidx, hv⟩ := positional_body_ok env r toks position st st1 hb
      apply ih _ st1 st' h
      rw [hidx]
      apply dash_tokens_known_consume r toks st.idx L hinv _ hv
      intro t ht hdash
      rw [read_token_of_get env toks _ t ht, hdash] at hd
      exact absurd hd (by simp)

theorem named_loop_known {F D : Type} (env : Env F D) (r : ArgParse) (toks : List String) :
    ∀ (fuel : Nat) (st st' : PState F D),
      named_loop env r toks fuel st = .returned st' →
      dash_tokens_known r toks st.idx →
      dash_tokens_known r toks st'.idx ∧ toks.length ≤ st'.idx := by
  intro fuel
  induction fuel with
  | zero =>
    intro st st' h hinv
    rw [named_loop] at h
    split at h
    · exact absurd h (by simp)
    · simp only [Outcome.returned.injEq] at h
      subst h; exact ⟨hinv, by omega⟩
  | succ fuel ih =>
    intro st st' h hinv
    by_cases hd : st.idx < toks.length
    · cases hb : named_body env r toks st with
      | error x =>
        obtain ⟨e, st1⟩ := x
        rw [named_loop_step_error env r toks fuel st st1 e hd hb] at h
        exact absurd h (by simp)
      | ok st1 =>
        rw [named_loop_step_ok env r toks fuel st st1 hd hb] at h
        obtain ⟨ty, arg, hsel, hidx, hv⟩ := named_body_ok env r toks st st1 hb
        apply ih st1 st' h
        rw [hidx]
        apply dash_tokens_known_consume r toks st.idx _ hinv _ hv
        intro t ht _
        rw [read_token_of_get env toks _ t ht] at hsel
        exact select_some_is_key r t ty arg hsel
    · rw [named_loop_done env r toks _ st hd] at h
      simp only [Outcome.returned.injEq] at h
      subst h; exact ⟨hinv, by omega⟩

/-- When `parse` returns, every token that begins with `'-'` is a key of the registry. -/
theorem parse_returned_known {F D : Type} (env : Env F D) (num_required : Nat) (r : ArgParse)
    (prog : String) (toks : List String) (store : Store F D) (st : PState F D)
    (h : (parse env num_required r prog toks store).2 = .returned st) :
    dash_tokens_known r toks toks.length := by
  rw [parse_outcome] at h
  split at h
  · exact absurd h (by simp)
  · split at h
    · exact absurd h (by simp)
    · split at h
      · rename_i hemp
        have : toks = [] := by simpa using hemp
        subst this
        intro j t hj; simp at hj
      · cases hpos : positional_loop env r toks num_required 0
            { idx := 0, store := store, reads := [] } with
        | error x => rw [hpos] at h; exact absurd h (by simp)
        | ok st0 =>
          rw [hpos] at h
          simp only at h
          have h0 : dash_tokens_known r toks 0 := fun j t hj => absurd hj (by omega)
          have h1 := positional_loop_known env r toks _ _ _ st0 hpos h0
          obtain ⟨h2, h3⟩ := named_loop_known env r toks _ st0 st h h1
          intro j t hj
          exact h2 j t (by omega)

/-- A run observed to stand at index `i` after `k` iterations examines token `i`. -/
theorem examines_of_observed {F D : Type} (env : Env F D) (num_required : Nat) (r : ArgParse)
    (toks : List String) (store : Store F D) (k i : Nat)
    (hhelp : toks.any is_help = false) (hnum : ¬ toks.length < num_required)
    (hobs : named_idx_after env num_required r toks store k = some i)
    (hi : i < toks.length) :
    ∃ st, examines env num_required r toks store st ∧ st.idx = i := by
  unfold named_idx_after at hobs
  split at hobs
  · rename_i st0 hpos
    obtain ⟨st, hst, hidx⟩ := Option.map_eq_some'.1 hobs
    exact ⟨st, ⟨hhelp, hnum, st0, k, hpos, hst, by omega⟩, hidx⟩
  · exact absurd hobs (by simp)

/-! ### A matched token and its values -/

theorem value_ok_iff_exists (toks : List String) (j : Nat) :
    value_ok toks j = true ↔ ∃ tok, toks[j]? = some tok ∧ starts_dash tok = false := by
  unfold value_ok
  cases toks[j]? with
  | none => simp
  | some t => simp

theorem value_ok_eq_false_iff (toks : List String) (j : Nat) :
    value_ok toks j = false ↔
      toks.length ≤ j ∨ ∃ tok, toks[j]? = some tok ∧ starts_dash tok = true := by
  unfold value_ok
  cases h : toks[j]? with
  | none =>
    have := List.getElem?_eq_none_iff.1 h
    simp; omega
  | some t =>
    have := (List.getElem?_eq_some.1 h).1
    simp; omega

/-- The outcome of one iteration of the named loop in terms of the state in which
`parse_arg` leaves. -/
theorem named_body_of_parse_arg_ok {F D : Type} (env : Env F D) (r : ArgParse)
    (toks : List String) (st st2 : PState F D) (ty : Ty) (arg : Argument)
    (h : (ptrs_by_name r (read_token env toks st.idx)).select = some (ty, arg))
    (hp : parse_arg env toks ty arg (read_token env toks st.idx)
      { idx := st.idx, store := st.store, reads := st.idx :: st.reads } = .ok st2) :
    named_body env r toks st =
      .ok { idx := st2.idx + 1, store := st2.store, reads := st2.reads } := by
  rw [named_body_matched env r toks st ty arg h, hp]

theorem named_body_of_parse_arg_error {F D : Type} (env : Env F D) (r : ArgParse)
    (toks : List String) (st : PState F D) (ty : Ty) (arg : Argument)
    (x : Exit × PState F D)
    (h : (ptrs_by_name r (read_token env toks st.idx)).select = some (ty, arg))
    (hp : parse_arg env toks ty arg (read_token env toks st.idx)
      { idx := st.idx, store := st.store, reads := st.idx :: st.reads } = .error x) :
    named_body env r toks st = .error x := by
  rw [named_body_matched env r toks st ty arg h, hp]

/-- What follows a completed iteration: the next token is examined, or `parse` returns. -/
theorem after_named_body {F D : Type} (env : Env F D) (num_required : Nat)
    (r : ArgParse) (prog : String) (toks : List String) (store : Store F D)
    (st st' : PState F D) (h : examines env num_required r toks store st)
    (hb : named_body env r toks st = .ok st') :
    (st'.idx < toks.length → examines env num_required r toks store st') ∧
    (¬ st'.idx < toks.length →
      (parse env num_required r prog toks store).2 = .returned st') :=
  ⟨examines_next env num_required r toks store st st' h hb,
   parse_returns_of_examines env num_required r prog toks store st st' h hb⟩

/-! ### Constructors and the counter -/

theorem construct_step (c : Nat) (d : Decl) (a : Argument) (c' : Nat)
    (h : construct c d = .ok (a, c')) :
    (a.required = true ∧ a.positional = (c : Int) ∧ c' = c + 1) ∨
    (a.required = false ∧ a.positional = -1 ∧ c' = c) := by
  cases d with
  | four name message value length =>
    simp only [construct] at h
    unfold Argument.ctor1 at h
    split at h
    · exact absurd h (by simp)
    · split at h
      · split at h
        · exact absurd h (by simp)
        · simp only [Except.ok.injEq, Prod.mk.injEq] at h
          obtain ⟨h1, h2⟩ := h
          subst h1; subst h2
          exact Or.inr ⟨rfl, rfl, rfl⟩
      · split at h
        · split at h
          · exact absurd h (by simp)
          · simp only [Except.ok.injEq, Prod.mk.injEq] at h
            obtain ⟨h1, h2⟩ := h
            subst h1; subst h2
            exact Or.inr ⟨rfl, rfl, rfl⟩
        · simp only [Except.ok.injEq, Prod.mk.injEq] at h
          obtain ⟨h1, h2⟩ := h
          subst h1; subst h2
          exact Or.inl ⟨rfl, rfl, rfl⟩
  | five short_name name message value length =>
    simp only [construct] at h
    unfold Argument.ctor2 at h
    split at h
    · exact absurd h (by simp)
    · rename_i a' heq
      simp only [Except.ok.injEq, Prod.mk.injEq] at h
      obtain ⟨h1, h2⟩ := h
      subst h1; subst h2
      split at heq
      · exact absurd heq (by simp)
      · split at heq
        · exact absurd heq (by simp)
        · simp only [Except.ok.injEq] at heq
          subst heq
          exact Or.inr ⟨rfl, rfl, rfl⟩

theorem construct_all_from (ds : List Decl) :
    ∀ (c : Nat) (args : List Argument) (n : Nat), construct_all c ds = .ok (args, n) →
      n = c + (args.filter fun a => a.required).length ∧
      (args.filter fun a => a.required).map (fun a => a.positional) =
        (List.range (args.filter fun a => a.required).length).map
          (fun k => ((c + k : Nat) : Int)) ∧
      ∀ a, a ∈ args → a.required = false → a.positional = -1 := by
  induction ds with
  | nil =>
    intro c args n h
    simp only [construct_all, Except.ok.injEq, Prod.mk.injEq] at h
    obtain ⟨rfl, rfl⟩ := h
    simp
  | cons d ds ih =>
    intro c args n h
    rw [construct_all] at h
    cases hc : construct c d with
    | error e => rw [hc] at h; exact absurd h (by simp)
    | ok p =>
      obtain ⟨a, c1⟩ := p
      rw [hc] at h
      simp only at h
      cases hr : construct_all c1 ds with
      | error e => rw [hr] at h; exact absurd h (by simp)
      | ok q =>
        obtain ⟨rest, n2⟩ := q
        rw [hr] at h
        simp only [Except.ok.injEq, Prod.mk.injEq] at h
        obtain ⟨rfl, rfl⟩ := h
        obtain ⟨h1, h2, h3⟩ := ih c1 rest n2 hr
        rcases construct_step c d a c1 hc with ⟨hreq, hpos, hc1⟩ | ⟨hreq, hpos, hc1⟩
        · subst hc1
          refine ⟨?_, ?_, ?_⟩
          · simp [List.filter_cons, hreq, h1]; omega
          · simp only [List.filter_cons, hreq, if_true, List.map_cons, List.length_cons,
              List.range_succ_eq_map, hpos, Nat.add_zero, List.map_map]
            rw [h2]
            congr 1
            apply List.map_congr_left
            intro k _
            simp only [Function.comp]
            congr 1
            omega
          · intro b hb hbr
            simp only [List.mem_cons] at hb
            rcases hb with rfl | hb
            · rw [hreq] at hbr; exact absurd hbr (by simp)
            · exact h3 b hb hbr
        · subst hc1
          refine ⟨?_, ?_, ?_⟩
          · simp [List.filter_cons, hreq, h1]
          · simp only [List.filter_cons, hreq, Bool.false_eq_true, if_false]
            exact h2
          · intro b hb hbr
            simp only [List.mem_cons] at hb
            rcases hb with rfl | hb
            · exact hpos
            · exact h3 b hb hbr

/-! ### What `add` stores -/

theorem find_insert_eq (k key : String) (a : Argument) (args : Partition) :
    find k (insert key a args) =
      match find k args with
      | some b => some b
      | none => if key = k then some a else none := by
  unfold insert
  split
  · rename_i c hkey
    cases hk : find k args with
    | some b => rfl
    | none =>
      by_cases heq : key = k
      · subst heq
        rw [hkey] at hk
        exact absurd hk (by simp)
      · simp [heq]
  · rename_i hkey
    rw [find_append]
    cases hk : find k args with
    | some b => rfl
    | none => simp [find]

theorem find_insert_preserved (k key : String) (a b : Argument) (args : Partition)
    (h : find k args = some b) : find k (insert key a args) = some b := by
  rw [find_insert_eq, h]

/-- What a successful `add` did: the checks it passed and the partitions afterwards. -/
theorem add_ok (ty : Ty) (arg : Argument) (r r' : ArgParse) (h : add ty arg r = .ok r') :
    exists_already r arg.name = false ∧
    (arg.short_name = "" ∨ exists_already r arg.short_name = false) ∧
    r'.part ty = (if arg.required = false
      then insert arg.short_name arg (insert arg.name arg (r.part ty))
      else insert arg.name arg (r.part ty)) ∧
    ∀ ty', ty' ≠ ty → r'.part ty' = r.part ty' := by
  unfold add at h
  by_cases hn : exists_already r arg.name = true
  · simp [hn] at h
  · have hn' : exists_already r arg.name = false := by simpa using hn
    by_cases hs : arg.short_name.length = 0
    · simp only [hn', hs, Bool.not_false, if_true, Bool.and_self, Except.ok.injEq] at h
      subst h
      refine ⟨hn', Or.inl ((string_length_eq_zero_iff _).1 hs), ?_,
        fun ty' hty => part_set_part_other _ _ _ _ hty⟩
      rw [part_set_part_same]
      cases arg.required <;> rfl
    · by_cases hk : exists_already r arg.short_name = true
      · simp [hn', hs, hk] at h
      · have hk' : exists_already r arg.short_name = false := by simpa using hk
        simp only [hn', hs, hk', Bool.not_false, if_false, if_true, Bool.and_self,
          Except.ok.injEq] at h
        subst h
        refine ⟨hn', Or.inr hk', ?_, fun ty' hty => part_set_part_other _ _ _ _ hty⟩
        rw [part_set_part_same]
        cases arg.required <;> rfl

theorem find_add_preserved (ty ty' : Ty) (arg b : Argument) (r r' : ArgParse) (k : String)
    (h : add ty arg r = .ok r') (hk : find k (r.part ty') = some b) :
    find k (r'.part ty') = some b := by
  obtain ⟨_, _, hp, ho⟩ := add_ok ty arg r r' h
  by_cases hty : ty' = ty
  · subst hty
    rw [hp]
    split
    · exact find_insert_preserved _ _ _ _ _ (find_insert_preserved _ _ _ _ _ hk)
    · exact find_insert_preserved _ _ _ _ _ hk
  · rw [ho ty' hty]; exact hk

theorem find_add_all_preserved (more : List (Ty × Argument)) :
    ∀ (r r' : ArgParse) (ty' : Ty) (k : String) (b : Argument),
      add_all more r = .ok r' → find k (r.part ty') = some b →
      find k (r'.part ty') = some b := by
  induction more with
  | nil =>
    intro r r' ty' k b h hk
    simp only [add_all, Except.ok.injEq] at h
    subst h; exact hk
  | cons p rest ih =>
    intro r r' ty' k b h hk
    obtain ⟨ty, arg⟩ := p
    rw [add_all] at h
    cases ha : add ty arg r with
    | error e => rw [ha] at h; exact absurd h (by simp)
    | ok r1 =>
      rw [ha] at h
      exact ih r1 r' ty' k b h (find_add_preserved ty ty' arg b r r1 k ha hk)

theorem find_name_after_add (ty : Ty) (arg : Argument) (r r' : ArgParse)
    (h : add ty arg r = .ok r') : find arg.name (r'.part ty) = some arg := by
  obtain ⟨hn, _, hp, _⟩ := add_ok ty arg r r' h
  have hfind : find arg.name (r.part ty) = none := by
    rw [find_eq_none_iff]
    exact fun hm => (exists_already_eq_false_iff r arg.name).1 hn ⟨ty, hm⟩
  have h1 := find_insert_self arg.name arg (r.part ty) hfind
  rw [hp]
  split
  · exact find_insert_preserved _ _ _ _ _ h1
  · exact h1

theorem find_short_name_after_add (ty : Ty) (arg : Argument) (r r' : ArgParse)
    (h : add ty arg r = .ok r') (hopt : arg.required = false) (hs : arg.short_name ≠ "") :
    find arg.short_name (r'.part ty) = some arg := by
  obtain ⟨hn, hsk, hp, _⟩ := add_ok ty arg r r' h
  have hsk' : exists_already r arg.short_name = false := by
    rcases hsk with hsk | hsk
    · exact absurd hsk hs
    · exact hsk
  have hfind : find arg.short_name (r.part ty) = none := by
    rw [find_eq_none_iff]
    exact fun hm => (exists_already_eq_false_iff r arg.short_name).1 hsk' ⟨ty, hm⟩
  rw [hp]
  simp only [hopt, if_true]
  rw [find_insert_eq]
  cases hk : find arg.short_name (insert arg.name arg (r.part ty)) with
  | none => simp
  | some b =>
    rw [find_insert_eq, hfind] at hk
    simp only at hk
    split at hk
    · simpa using hk.symm
    · exact absurd hk (by simp)

/-! ### The positional loop -/

theorem positional_loop_add {F D : Type} (env : Env F D) (r : ArgParse) (toks : List String) :
    ∀ (p k position : Nat) (st : PState F D),
      positional_loop env r toks (p + k) position st =
        match positional_loop env r toks p position st with
        | .error x => .error x
        | .ok st1 => positional_loop env r toks k (position + p) st1 := by
  intro p
  induction p with
  | zero =>
    intro k position st
    simp [positional_loop]
  | succ p ih =>
    intro k position st
    rw [show p + 1 + k = (p + k) + 1 by omega, positional_loop, positional_loop]
    cases positional_body env r toks position st with
    | error x => rfl
    | ok st1 =>
      simp only
      rw [ih k (position + 1) st1, show position + 1 + p = position + (p + 1) by omega]

theorem positional_body_dash {F D : Type} (env : Env F D) (r : ArgParse) (toks : List String)
    (position : Nat) (st : PState F D)
    (h : starts_dash (read_token env toks st.idx) = true) :
    positional_body env r toks position st =
      .error (.invalid_position (read_token env toks st.idx) position,
        { idx := st.idx, store := st.store, reads := st.idx :: st.reads }) := by
  simp [positional_body, h]

theorem sorted_insert_perm (x : argument_info) (l : List argument_info) :
    (sorted_insert x l).Perm (x :: l) := by
  induction l with
  | nil => exact List.Perm.refl _
  | cons y ys ih =>
    unfold sorted_insert
    split
    · exact List.Perm.refl _
    · exact (List.Perm.cons y ih).trans (List.Perm.swap x y ys)

theorem sort_infos_perm (l : List argument_info) : (sort_infos l).Perm l := by
  induction l with
  | nil => exact List.Perm.refl _
  | cons x xs ih =>
    unfold sort_infos
    exact (sorted_insert_perm x _).trans (List.Perm.cons x ih)

theorem info_insert_any (i : argument_info) (m : List (String × argument_info)) :
    (m.any fun p => decide (p.1 = i.name)) = true ↔ i.name ∈ m.map Prod.fst := by
  simp only [List.any_eq_true, decide_eq_true_eq, List.mem_map]

theorem mem_info_insert (i : argument_info) (m : List (String × argument_info))
    (p : String × argument_info) (h : p ∈ info_insert i m) : p ∈ m ∨ p = (i.name, i) := by
  unfold info_insert at h
  split at h
  · exact Or.inl h
  · simpa using h

theorem mem_info_insert_of_mem (i : argument_info) (m : List (String × argument_info))
    (p : String × argument_info) (h : p ∈ m) : p ∈ info_insert i m := by
  unfold info_insert
  split
  · exact h
  · exact List.mem_append_left _ h

theorem info_insert_key (i : argument_info) (m : List (String × argument_info)) :
    i.name ∈ (info_insert i m).map Prod.fst := by
  unfold info_insert
  split
  · rename_i h
    exact (info_insert_any i m).1 h
  · simp

theorem info_insert_ok (i : argument_info) (m : List (String × argument_info))
    (h : info_map_ok m) : info_map_ok (info_insert i m) := by
  unfold info_insert
  split
  · exact h
  · rename_i hany
    have hnot : i.name ∉ m.map Prod.fst := fun hm => hany ((info_insert_any i m).2 hm)
    refine ⟨?_, ?_⟩
    · intro p hp
      simp only [List.mem_append, List.mem_singleton] at hp
      rcases hp with hp | rfl
      · exact h.1 p hp
      · rfl
    · rw [List.map_append, List.nodup_append]
      refine ⟨h.2, by simp, ?_⟩
      intro k hk hk'
      simp only [List.map_cons, List.map_nil, List.mem_singleton] at hk'
      subst hk'
      exact hnot hk

theorem group_arguments_ok (ty : Ty) (args : Partition) :
    ∀ m, info_map_ok m → info_map_ok (group_arguments ty args m) := by
  induction args with
  | nil => intro m h; exact h
  | cons e rest ih =>
    intro m h
    obtain ⟨k, a⟩ := e
    unfold group_arguments
    apply ih
    split
    · exact h
    · exact info_insert_ok _ _ h

theorem group_arguments_mem (ty : Ty) (args : Partition) :
    ∀ m p, p ∈ group_arguments ty args m →
      p ∈ m ∨ ∃ k a, (k, a) ∈ args ∧ a.required = false ∧ p = (a.name, info_of ty a) := by
  induction args with
  | nil => intro m p h; exact Or.inl h
  | cons e rest ih =>
    intro m p h
    obtain ⟨k, a⟩ := e
    unfold group_arguments at h
    rcases ih _ p h with h1 | ⟨k', a', hm, hr, hp⟩
    · split at h1
      · exact Or.inl h1
      · rename_i hreq
        rcases mem_info_insert _ _ _ h1 with h2 | h2
        · exact Or.inl h2
        · exact Or.inr ⟨k, a, List.mem_cons_self _ _, by simpa using hreq, h2⟩
    · exact Or.inr ⟨k', a', List.mem_cons_of_mem _ hm, hr, hp⟩

theorem group_arguments_subset (ty : Ty) (args : Partition) :
    ∀ m p, p ∈ m → p ∈ group_arguments ty args m := by
  induction args with
  | nil => intro m p h; exact h
  | cons e rest ih =>
    intro m p h
    obtain ⟨k, a⟩ := e
    unfold group_arguments
    apply ih
    split
    · exact h
    · exact mem_info_insert_of_mem _ _ _ h

theorem group_arguments_key (ty : Ty) (args : Partition) :
    ∀ m k a, (k, a) ∈ args → a.required = false →
      a.name ∈ (group_arguments ty args m).map Prod.fst := by
  induction args with
  | nil => intro m k a h; simp at h
  | cons e rest ih =>
    intro m k a h hr
    obtain ⟨k', a'⟩ := e
    unfold group_arguments
    simp only [List.mem_cons, Prod.mk.injEq] at h
    rcases h with ⟨_, rfl⟩ | h
    · simp only [hr, Bool.false_eq_true, if_false]
      obtain ⟨p, hp, he⟩ := List.mem_map.1 (info_insert_key (info_of ty a) m)
      exact List.mem_map.2 ⟨p, group_arguments_subset ty rest _ p hp, he⟩
    · exact ih _ k a h hr

theorem group_arguments_keys_subset (ty : Ty) (args : Partition)
    (m : List (String × argument_info)) (k : String) (h : k ∈ m.map Prod.fst) :
    k ∈ (group_arguments ty args m).map Prod.fst := by
  obtain ⟨p, hp, he⟩ := List.mem_map.1 h
  exact List.mem_map.2 ⟨p, group_arguments_subset ty args m p hp, he⟩

theorem optional_args_map_ok (r : ArgParse) : info_map_ok (optional_args_map r) := by
  unfold optional_args_map
  apply group_arguments_ok
  apply group_arguments_ok
  apply group_arguments_ok
  apply group_arguments_ok
  apply group_arguments_ok
  exact ⟨fun p hp => absurd hp (by simp), by simp⟩

theorem optional_args_map_mem (r : ArgParse) (p : String × argument_info)
    (h : p ∈ optional_args_map r) :
    ∃ ty k a, (k, a) ∈ r.part ty ∧ a.required = false ∧ p = (a.name, info_of ty a) := by
  unfold optional_args_map at h
  rcases group_arguments_mem _ _ _ p h with h | ⟨k, a, h1, h2, h3⟩
  · rcases group_arguments_mem _ _ _ p h with h | ⟨k, a, h1, h2, h3⟩
    · rcases group_arguments_mem _ _ _ p h with h | ⟨k, a, h1, h2, h3⟩
      · rcases group_arguments_mem _ _ _ p h with h | ⟨k, a, h1, h2, h3⟩
        · rcases group_arguments_mem _ _ _ p h with h | ⟨k, a, h1, h2, h3⟩
          · simp at h
          · exact ⟨.str, k, a, h1, h2, h3⟩
        · exact ⟨.int, k, a, h1, h2, h3⟩
      · exact ⟨.float, k, a, h1, h2, h3⟩
    · exact ⟨.double, k, a, h1, h2, h3⟩
  · exact ⟨.bool, k, a, h1, h2, h3⟩

theorem optional_args_map_key (r : ArgParse) (ty : Ty) (k : String) (a : Argument)
    (h : (k, a) ∈ r.part ty) (hr : a.required = false) :
    a.name ∈ (optional_args_map r).map Prod.fst := by
  unfold optional_args_map
  cases ty with
  | str =>
    exact group_arguments_keys_subset _ _ _ _ (group_arguments_keys_subset _ _ _ _
      (group_arguments_keys_subset _ _ _ _ (group_arguments_keys_subset _ _ _ _
        (group_arguments_key .str r.str_args [] k a h hr))))
  | int =>
    exact group_arguments_keys_subset _ _ _ _ (group_arguments_keys_subset _ _ _ _
      (group_arguments_keys_subset _ _ _ _ (group_arguments_key .int r.int_args _ k a h hr)))
  | float =>
    exact group_arguments_keys_subset _ _ _ _ (group_arguments_keys_subset _ _ _ _
      (group_arguments_key .float r.float_args _ k a h hr))
  | double =>
    exact group_arguments_keys_subset _ _ _ _
      (group_arguments_key .double r.double_args _ k a h hr)
  | bool => exact group_arguments_key .bool r.bool_args _ k a h hr

/-! ### What a sequence of registrations leaves in the registry -/

theorem mem_insert (key : String) (a : Argument) (args : Partition) (p : String × Argument)
    (h : p ∈ insert key a args) : p ∈ args ∨ p = (key, a) := by
  unfold insert at h
  split at h
  · exact Or.inl h
  · simpa using h

theorem mem_insert_of_mem (key : String) (a : Argument) (args : Partition)
    (p : String × Argument) (h : p ∈ args) : p ∈ insert key a args := by
  unfold insert
  split
  · exact h
  · exact List.mem_append_left _ h

theorem mem_insert_self (key : String) (a : Argument) (args : Partition)
    (h : find key args = none) : (key, a) ∈ insert key a args := by
  unfold insert
  rw [h]
  simp

theorem registered_empty : registered ArgParse.empty [] := by
  refine ⟨?_, ?_, by simp⟩
  · intro ty k a h
    cases ty <;> simp [ArgParse.part, ArgParse.empty] at h
  · intro ty a h
    simp at h

theorem registered_add (r r1 : ArgParse) (acc : List (Ty × Argument)) (ty : Ty)
    (a : Argument) (hreg : registered r acc) (hadd : add ty a r = .ok r1) :
    registered r1 (acc ++ [(ty, a)]) := by
  obtain ⟨ha, hb, hc⟩ := hreg
  obtain ⟨hn, _, hp, ho⟩ := add_ok ty a r r1 hadd
  have hnk : ¬ is_key r a.name := (exists_already_eq_false_iff r a.name).1 hn
  have hfind : find a.name (r.part ty) = none := by
    rw [find_eq_none_iff]
    exact fun hm => hnk ⟨ty, hm⟩
  refine ⟨?_, ?_, ?_⟩
  · intro ty' k b hm
    by_cases hty : ty' = ty
    · subst hty
      rw [hp] at hm
      have hcases : (k, b) ∈ r.part ty' ∨ b = a := by
        split at hm
        · rcases mem_insert _ _ _ _ hm with h1 | h1
          · rcases mem_insert _ _ _ _ h1 with h2 | h2
            · exact Or.inl h2
            · exact Or.inr (by simpa using (Prod.mk.inj h2).2)
          · exact Or.inr (by simpa using (Prod.mk.inj h1).2)
        · rcases mem_insert _ _ _ _ hm with h1 | h1
          · exact Or.inl h1
          · exact Or.inr (by simpa using (Prod.mk.inj h1).2)
      rcases hcases with h1 | h1
      · exact List.mem_append_left _ (ha ty' k b h1)
      · subst h1; simp
    · rw [ho ty' hty] at hm
      exact List.mem_append_left _ (ha ty' k b hm)
  · intro ty' b hm
    simp only [List.mem_append, List.mem_singleton, Prod.mk.injEq] at hm
    rcases hm with hm | ⟨rfl, rfl⟩
    · have hold := hb ty' b hm
      by_cases hty : ty' = ty
      · subst hty
        rw [hp]
        split
        · exact mem_insert_of_mem _ _ _ _ (mem_insert_of_mem _ _ _ _ hold)
        · exact mem_insert_of_mem _ _ _ _ hold
      · rw [ho ty' hty]; exact hold
    · rw [hp]
      have hself := mem_insert_self b.name b (r.part ty') hfind
      split
      · exact mem_insert_of_mem _ _ _ _ hself
      · exact hself
  · rw [List.map_append, List.nodup_append]
    refine ⟨hc, by simp, ?_⟩
    intro k hk hk'
    simp only [List.map_cons, List.map_nil, List.mem_singleton] at hk'
    subst hk'
    obtain ⟨d, hd, he⟩ := List.mem_map.1 hk
    obtain ⟨ty', b⟩ := d
    simp only at he
    have hmem := hb ty' b hd
    rw [he] at hmem
    exact hnk ⟨ty', List.mem_map.2 ⟨(a.name, b), hmem, rfl⟩⟩

theorem registered_add_all (ds : List (Ty × Argument)) :
    ∀ (r r' : ArgParse) (acc : List (Ty × Argument)), registered r acc →
      add_all ds r = .ok r' → registered r' (acc ++ ds) := by
  induction ds with
  | nil =>
    intro r r' acc hreg h
    simp only [add_all, Except.ok.injEq] at h
    subst h
    simpa using hreg
  | cons d rest ih =>
    intro r r' acc hreg h
    obtain ⟨ty, a⟩ := d
    rw [add_all] at h
    cases ha : add ty a r with
    | error e => rw [ha] at h; exact absurd h (by simp)
    | ok r1 =>
      rw [ha] at h
      have := ih r1 r' (acc ++ [(ty, a)]) (registered_add r r1 acc ty a hreg ha) h
      simpa using this

theorem info_of_ne_help_info (ty : Ty) (a : Argument) : info_of ty a ≠ help_info := by
  intro h
  have : (info_of ty a).type = help_info.type := by rw [h]
  cases ty <;> simp [info_of, help_info, type_label] at this

/-- For a registry left by the registrations `decls`, the values of `optional_args_map`
are, up to order, the entries of the optional arguments among `decls`, and these are
pairwise distinct. -/
theorem optional_args_map_perm (r : ArgParse) (decls : List (Ty × Argument))
    (hreg : registered r decls) :
    ((optional_args_map r).map Prod.snd).Perm (optional_infos decls) ∧
    (optional_infos decls).Nodup := by
  obtain ⟨ha, hb, hc⟩ := hreg
  obtain ⟨hok1, hok2⟩ := optional_args_map_ok r
  have hnames : ∀ d d', d ∈ decls → d' ∈ decls → d.2.name = d'.2.name → d = d' := by
    intro d d' hd hd' he
    exact List.inj_on_of_nodup_map hc hd hd' he
  have hT : (optional_infos decls).Nodup := by
    apply List.Nodup.of_map (fun i => i.name)
    unfold optional_infos
    rw [List.map_map]
    exact List.Nodup.sublist (List.Sublist.map _ (List.filter_sublist _)) hc
  have hV : ((optional_args_map r).map Prod.snd).Nodup := by
    apply List.Nodup.of_map (fun i => i.name)
    rw [List.map_map]
    have : (optional_args_map r).map ((fun i => i.name) ∘ Prod.snd)
        = (optional_args_map r).map Prod.fst := by
      apply List.map_congr_left
      intro p hp
      exact (hok1 p hp).symm
    rw [this]
    exact hok2
  refine ⟨(List.perm_ext_iff_of_nodup hV hT).2 ?_, hT⟩
  intro v
  constructor
  · intro hv
    obtain ⟨p, hp, rfl⟩ := List.mem_map.1 hv
    obtain ⟨ty, k, a, hm, hr, rfl⟩ := optional_args_map_mem r p hp
    unfold optional_infos
    exact List.mem_map.2 ⟨(ty, a), List.mem_filter.2 ⟨ha ty k a hm, by simp [hr]⟩, rfl⟩
  · intro hv
    unfold optional_infos at hv
    obtain ⟨d, hd, rfl⟩ := List.mem_map.1 hv
    obtain ⟨ty, a⟩ := d
    obtain ⟨hd1, hd2⟩ := List.mem_filter.1 hd
    have hr : a.required = false := by simpa using hd2
    have hkey := optional_args_map_key r ty a.name a (hb ty a hd1) hr
    obtain ⟨p, hp, hpk⟩ := List.mem_map.1 hkey
    obtain ⟨ty', k', a', hm', hr', rfl⟩ := optional_args_map_mem r p hp
    simp only at hpk
    have := hnames (ty', a') (ty, a) (ha ty' k' a' hm') hd1 hpk
    simp only [Prod.mk.injEq] at this
    obtain ⟨rfl, rfl⟩ := this
    exact List.mem_map.2 ⟨_, hp, rfl⟩

/-! ### Frame: what a run leaves alone -/

theorem find_some_mem (key : String) (args : Partition) (a : Argument)
    (h : find key args = some a) : (key, a) ∈ args := by
  induction args with
  | nil => simp [find] at h
  | cons p rest ih =>
    obtain ⟨k, b⟩ := p
    unfold find at h
    split at h
    · rename_i hk
      simp only [Option.some.injEq] at h
      subst h; subst hk
      exact List.mem_cons_self _ _
    · exact List.mem_cons_of_mem _ (ih h)

theorem find_at_position_some (position : Int) (args : Partition) (a : Argument)
    (h : find_at_position position args = some a) :
    ∃ k, (k, a) ∈ args ∧ a.positional = position := by
  induction args with
  | nil => simp [find_at_position] at h
  | cons p rest ih =>
    obtain ⟨k, b⟩ := p
    unfold find_at_position at h
    split at h
    · rename_i hk
      simp only [Option.some.injEq] at h
      subst h
      exact ⟨k, List.mem_cons_self _ _, hk⟩
    · obtain ⟨k', hm, hp⟩ := ih h
      exact ⟨k', List.mem_cons_of_mem _ hm, hp⟩

theorem select_some_get (p : Ptrs) (ty : Ty) (a : Argument)
    (h : p.select = some (ty, a)) : p.get ty = some a := by
  unfold Ptrs.select at h
  split at h
  · simp only [Option.some.injEq, Prod.mk.injEq] at h
    obtain ⟨rfl, rfl⟩ := h; simpa [Ptrs.get]
  · split at h
    · simp only [Option.some.injEq, Prod.mk.injEq] at h
      obtain ⟨rfl, rfl⟩ := h; simpa [Ptrs.get]
    · split at h
      · simp only [Option.some.injEq, Prod.mk.injEq] at h
        obtain ⟨rfl, rfl⟩ := h; simpa [Ptrs.get]
      · split at h
        · simp only [Option.some.injEq, Prod.mk.injEq] at h
          obtain ⟨rfl, rfl⟩ := h; simpa [Ptrs.get]
        · split at h
          · simp only [Option.some.injEq, Prod.mk.injEq] at h
            obtain ⟨rfl, rfl⟩ := h; simpa [Ptrs.get]
          · exact absurd h (by simp)

theorem ptrs_at_position_get (r : ArgParse) (position : Nat) (ty : Ty) :
    (ptrs_at_position r position).get ty = find_at_position position (r.part ty) := by
  cases ty <;> rfl

theorem ptrs_by_name_get (r : ArgParse) (key : String) (ty : Ty) :
    (ptrs_by_name r key).get ty = find key (r.part ty) := by
  cases ty <;> rfl

/-- A completed `parse_arg` leaves alone every cell of another type and every cell outside
the argument's bound storage. -/
theorem parse_arg_ok_frame {F D : Type} (env : Env F D) (toks : List String) (ty : Ty)
    (arg : Argument) (to_parse : String) (st st' : PState F D)
    (h : parse_arg env toks ty arg to_parse st = .ok st') (ty' : Ty) (addr : Nat)
    (hfr : ty' ≠ ty ∨ writes_cell arg addr = false) :
    st'.store.read ty' addr = st.store.read ty' addr := by
  by_cases hl : arg.length = 0
  · rw [parse_arg_flag env toks ty arg to_parse st hl] at h
    simp only [Except.ok.injEq] at h
    subst h
    apply read_write_other
    rcases hfr with hfr | hfr
    · left; rw [acceptance_ty]; exact fun e => hfr e.symm
    · right
      intro e
      simp [writes_cell, hl, e] at hfr
  · rw [parse_arg_values env toks ty arg to_parse st hl] at h
    obtain ⟨_, _, _, h4⟩ := parse_arg_loop_ok env toks ty arg _ _ _ _ h
    apply h4
    rcases hfr with hfr | hfr
    · exact Or.inl hfr
    · right
      simp only [writes_cell, hl, decide_False, Bool.false_and, Bool.false_or,
        Bool.and_eq_false_imp, decide_eq_true_eq, decide_eq_false_iff_not] at hfr
      by_cases hlt : addr < arg.value + 0
      · exact Or.inl hlt
      · right
        have := hfr (by omega)
        omega

theorem positional_body_frame {F D : Type} (env : Env F D) (r : ArgParse)
    (toks : List String) (num_required position : Nat) (st st' : PState F D)
    (h : positional_body env r toks position st = .ok st') (hpos : position < num_required)
    (ty : Ty) (addr : Nat) (hcell : cell_untouched num_required r toks ty addr) :
    st'.store.read ty addr = st.store.read ty addr := by
  unfold positional_body at h
  simp only at h
  split at h
  · exact absurd h (by simp)
  · split at h
    · exact absurd h (by simp)
    · rename_i st2 hp
      simp only [Except.ok.injEq] at h
      subst h
      unfold parse_argument at hp
      split at hp
      · rename_i ty_a arg hsel
        have hget := select_some_get _ _ _ hsel
        rw [ptrs_at_position_get] at hget
        obtain ⟨k, hm, hposn⟩ := find_at_position_some _ _ _ hget
        apply parse_arg_ok_frame env toks ty_a arg _ _ _ hp ty addr
        by_cases hty : ty = ty_a
        · subst hty
          right
          cases hw : writes_cell arg addr with
          | false => rfl
          | true =>
            have := (hcell k arg hm hw).2
            exact absurd ⟨by omega, by omega⟩ this
        · exact Or.inl hty
      · simp only [Except.ok.injEq] at hp
        subst hp
        rfl

theorem positional_loop_frame {F D : Type} (env : Env F D) (r : ArgParse)
    (toks : List String) (num_required : Nat) (ty : Ty) (addr : Nat)
    (hcell : cell_untouched num_required r toks ty addr) :
    ∀ (k position : Nat) (st st' : PState F D), position + k ≤ num_required →
      positional_loop env r toks k position st = .ok st' →
      st'.store.read ty addr = st.store.read ty addr := by
  intro k
  induction k with
  | zero =>
    intro position st st' _ h
    simp only [positional_loop, Except.ok.injEq] at h
    subst h; rfl
  | succ k ih =>
    intro position st st' hle h
    rw [positional_loop] at h
    cases hb : positional_body env r toks position st with
    | error x => rw [hb] at h; exact absurd h (by simp)
    | ok st1 =>
      rw [hb] at h
      rw [ih (position + 1) st1 st' (by omega) h]
      exact positional_body_frame env r toks num_required position st st1 hb (by omega)
        ty addr hcell

theorem named_body_frame {F D : Type} (env : Env F D) (r : ArgParse)
    (toks : List String) (num_required : Nat) (st st' : PState F D)
    (h : named_body env r toks st = .ok st') (hlt : st.idx < toks.length)
    (ty : Ty) (addr : Nat) (hcell : cell_untouched num_required r toks ty addr) :
    st'.store.read ty addr = st.store.read ty addr := by
  have hget : toks[st.idx]? = some toks[st.idx] := List.getElem?_eq_getElem hlt
  have hread := read_token_of_get env toks st.idx _ hget
  cases hsel : (ptrs_by_name r (read_token env toks st.idx)).select with
  | none =>
    rw [named_body_unrecognized env r toks st hsel] at h
    exact absurd h (by simp)
  | some p =>
    obtain ⟨ty_a, arg⟩ := p
    rw [named_body_matched env r toks st ty_a arg hsel] at h
    split at h
    · exact absurd h (by simp)
    · rename_i st2 hp
      simp only [Except.ok.injEq] at h
      subst h
      have hfind := select_some_get _ _ _ hsel
      rw [ptrs_by_name_get, hread] at hfind
      have hm := find_some_mem _ _ _ hfind
      apply parse_arg_ok_frame env toks ty_a arg _ _ _ hp ty addr
      by_cases hty : ty = ty_a
      · subst hty
        right
        cases hw : writes_cell arg addr with
        | false => rfl
        | true => exact absurd (List.getElem_mem hlt) (hcell _ arg hm hw).1
      · exact Or.inl hty

theorem named_loop_frame {F D : Type} (env : Env F D) (r : ArgParse)
    (toks : List String) (num_required : Nat) (ty : Ty) (addr : Nat)
    (hcell : cell_untouched num_required r toks ty addr) :
    ∀ (fuel : Nat) (st st' : PState F D),
      named_loop env r toks fuel st = .returned st' →
      st'.store.read ty addr = st.store.read ty addr := by
  intro fuel
  induction fuel with
  | zero =>
    intro st st' h
    rw [named_loop] at h
    split at h
    · exact absurd h (by simp)
    · simp only [Outcome.returned.injEq] at h
      subst h; rfl
  | succ fuel ih =>
    intro st st' h
    by_cases hd : st.idx < toks.length
    · cases hb : named_body env r toks st with
      | error x =>
        obtain ⟨e, st1⟩ := x
        rw [named_loop_step_error env r toks fuel st st1 e hd hb] at h
        exact absurd h (by simp)
      | ok st1 =>
        rw [named_loop_step_ok env r toks fuel st st1 hd hb] at h
        rw [ih st1 st' h]
        exact named_body_frame env r toks num_required st st1 hb hd ty addr hcell
    · rw [named_loop_done env r toks _ st hd] at h
      simp only [Outcome.returned.injEq] at h
      subst h; rfl

/-- A successful `parse` leaves alone every cell no matched argument can write. -/
theorem parse_frame {F D : Type} (env : Env F D) (num_required : Nat) (r : ArgParse)
    (prog : String) (toks : List String) (store : Store F D) (st' : PState F D)
    (h : (parse env num_required r prog toks store).2 = .returned st')
    (ty : Ty) (addr : Nat) (hcell : cell_untouched num_required r toks ty addr) :
    st'.store.read ty addr = store.read ty addr := by
  rw [parse_outcome] at h
  split at h
  · exact absurd h (by simp)
  · split at h
    · exact absurd h (by simp)
    · split at h
      · simp only [Outcome.returned.injEq] at h
        subst h; rfl
      · cases hpos : positional_loop env r toks num_required 0
            { idx := 0, store := store, reads := [] } with
        | error x => rw [hpos] at h; exact absurd h (by simp)
        | ok st0 =>
          rw [hpos] at h
          simp only at h
          rw [named_loop_frame env r toks num_required ty addr hcell _ st0 st' h]
          exact positional_loop_frame env r toks num_required ty addr hcell _ _ _ st0
            (by omega) hpos

/-- When one of the `k` tokens is present and begins with `'-'`, the loop ends at or before
that token: every index it has read by then is within the token list. -/
theorem parse_arg_loop_dash_reads {F D : Type} (env : Env F D) (toks : List String) (ty : Ty)
    (arg : Argument) :
    ∀ (k i : Nat) (st st1 : PState F D) (e : Exit),
      parse_arg_loop env toks ty arg k i st = .error (e, st1) →
      (∃ j, j < k ∧ st.idx + 1 + j < toks.length ∧
        value_ok toks (st.idx + 1 + j) = false) →
      ∀ m, m ∈ st1.reads → m ∈ st.reads ∨ m < toks.length := by
  intro k
  induction k with
  | zero => intro i st st1 e h; simp [parse_arg_loop] at h
  | succ k ih =>
    intro i st st1 e h hin m hm
    obtain ⟨j, hj, hjn, hjv⟩ := hin
    rw [parse_arg_loop] at h
    cases hs : parse_arg_step env toks ty arg i st with
    | error x =>
      rw [hs] at h
      simp only [Except.error.injEq] at h
      subst h
      obtain ⟨h1, _⟩ := parse_arg_step_error env toks ty arg i st st1 e hs
      rw [h1] at hm
      simp only [List.mem_cons] at hm
      rcases hm with hm | hm
      · right; omega
      · exact Or.inl hm
    | ok st2 =>
      rw [hs] at h
      simp only at h
      obtain ⟨hv, v, _, rfl⟩ := parse_arg_step_ok env toks ty arg i st st2 hs
      have hj0 : j ≠ 0 := by
        rintro rfl
        rw [show st.idx + 1 + 0 = st.idx + 1 by omega, hv] at hjv
        exact absurd hjv (by simp)
      rcases ih (i + 1) _ st1 e h
          ⟨j - 1, by omega, by simp only; omega, by
            simp only
            rwa [show st.idx + 1 + 1 + (j - 1) = st.idx + 1 + j by omega]⟩ m hm with h1 | h1
      · simp only [List.mem_cons] at h1
        rcases h1 with h1 | h1
        · right; omega
        · exact Or.inl h1
      · exact Or.inr h1

/-! ## Claims -/

/-- C1 (evaluation at the claim's input). With the required int declared with the default
length 0, `parse` returns with `str = "file.txt"`, `count = 7`, `verbose = true`, but the
required int is bound to 1 (the value of `accept`), not to 42; declared with length 1 the
run ends in the "no more values to parse" exit and the int is never written. -/
theorem round_trip_required_int_not_converted :
    round_trip_run 0 =
      some { returned := true, exit := none, str := "file.txt", int := 1, count := 7,
             verbose := true } ∧
    round_trip_run 1 =
      some { returned := false, exit := some (Exit.no_more_values "number" "" 1),
             str := "file.txt", int := 0, count := 0, verbose := false } := by
  constructor <;> decide!

/-- C2 (evaluation at a failing input). With a single required int declared with the
default length and the token list `["42"]`, `parse` returns, the conversion the claim
expects is `stoi "42" = 42`, and the required argument at position 0 is bound to 1 (the
value of `accept`); the same holds for the token `"7"`, so the bound value does not
depend on the token. -/
theorem positional_int_bound_to_accept_marker :
    positional_int_run "42" = some (true, 1) ∧ stoi "42" = some 42 ∧
    positional_int_run "7" = some (true, 1) := by
  refine ⟨?_, ?_, ?_⟩ <;> decide!

/-- C3. Uniqueness: `add` of an argument whose long name is a key of any of the five
partitions ends in the conflict exit (nothing is inserted), whatever the partition `ty`
of the new argument; so does `add` of an argument whose non-empty short name is a key of
any partition; and when neither is a key, `add` succeeds: the argument is stored under
its long name in its own partition and the other partitions are untouched. -/
theorem add_rejects_exactly_taken_names (r : ArgParse) (ty : Ty) (arg : Argument) :
    (is_key r arg.name → add ty arg r = .error (.conflict arg.name)) ∧
    (arg.short_name ≠ "" → is_key r arg.short_name →
      add ty arg r = .error (.conflict arg.name)) ∧
    (¬ is_key r arg.name → (arg.short_name = "" ∨ ¬ is_key r arg.short_name) →
      ∃ r', add ty arg r = .ok r' ∧ find arg.name (r'.part ty) = some arg ∧
        ∀ ty', ty' ≠ ty → r'.part ty' = r.part ty') := by
  refine ⟨?_, ?_, ?_⟩
  · intro h
    have h1 := (exists_already_iff r arg.name).2 h
    simp [add, h1]
  · intro hne h
    have h1 := (exists_already_iff r arg.short_name).2 h
    have h2 : ¬ arg.short_name.length = 0 := fun e => hne ((string_length_eq_zero_iff _).1 e)
    simp [add, h1, h2]
  · intro hn hs
    have h1 := (exists_already_eq_false_iff r arg.name).2 hn
    have h2 : (if arg.short_name.length = 0 then true else !exists_already r arg.short_name)
        = true := by
      rcases hs with hs | hs
      · simp [(string_length_eq_zero_iff _).2 hs]
      · simp [(exists_already_eq_false_iff r arg.short_name).2 hs]
    have hfind : find arg.name (r.part ty) = none := by
      rw [find_eq_none_iff]
      exact fun hm => hn ⟨ty, hm⟩
    refine ⟨r.set_part ty (if (!arg.required) = true
        then insert arg.short_name arg (insert arg.name arg (r.part ty))
        else insert arg.name arg (r.part ty)), ?_, ?_, ?_⟩
    · simp only [add, h1, h2, Bool.not_false, Bool.and_self, if_true]
    · rw [part_set_part_same]
      have h3 := find_insert_self arg.name arg (r.part ty) hfind
      split
      · rw [find_insert_other _ _ _ _ (by rw [h3]; simp), h3]
      · exact h3
    · intro ty' hty
      exact part_set_part_other _ _ _ _ hty

theorem add_rejects_exactly_taken_names_witness :
    add .str (sample_optional "--x" "") sample_registry = .error (.conflict "--x") ∧
    add .bool (sample_optional "--yes" "--x") sample_registry = .error (.conflict "--yes") ∧
    ∃ r', add .str (sample_optional "--z" "-z") sample_registry = .ok r' ∧
      find "--z" (r'.part .str) = some (sample_optional "--z" "-z") ∧
      ∀ ty', ty' ≠ .str → r'.part ty' = sample_registry.part ty' :=
  ⟨(add_rejects_exactly_taken_names sample_registry .str _).1 ⟨.int, by decide⟩,
   (add_rejects_exactly_taken_names sample_registry .bool _).2.1 (by decide) ⟨.int, by decide⟩,
   (add_rejects_exactly_taken_names sample_registry .str _).2.2
     (by rw [← exists_already_eq_false_iff]; decide)
     (Or.inr (by rw [← exists_already_eq_false_iff]; decide))⟩

/-- C4 (as stated, at a concrete input). The named phase examines token 0 = `--range`,
which it matches to an int argument of stored length 2; the second of the next two tokens,
`-v`, begins with `'-'`; `parse` fails, but not with the "no more values to parse"
outcome: it ends with the exception `std::stoi` throws on `abc`, having read the tokens 0
and 1 only. -/
theorem arity_failure_can_be_conversion_exception :
    named_idx_after env0 0 flag_registry ["--range", "abc", "-v"] store0 0 = some 0 ∧
    (ptrs_by_name flag_registry "--range").select = some (.int, range_argument) ∧
    range_argument.length = 2 ∧
    ["--range", "abc", "-v"][0 + 1 + 1]? = some "-v" ∧ starts_dash "-v" = true ∧
    (parse env0 0 flag_registry "prog" ["--range", "abc", "-v"] store0).2.exit?
      = some (.conversion_exception "abc") ∧
    (parse env0 0 flag_registry "prog" ["--range", "abc", "-v"] store0).2.exit?
      ≠ some (.no_more_values "--range" "-r" 2) ∧
    ((parse env0 0 flag_registry "prog" ["--range", "abc", "-v"] store0).2.state?.map
      fun st => st.reads) = some [1, 0] := by
  refine ⟨?_, ?_, ?_, ?_, ?_, ?_, ?_, ?_⟩ <;> decide!

/-- C4 (amended). Arity enforcement: when the named phase examines token `i = st.idx`,
matches it to an argument of stored length `L >= 1`, and one of the next `L` tokens is
present and begins with `'-'`, then `parse` fails: it ends in the "no more values to
parse" exit naming the argument, its short name and its length, unless the conversion of
an earlier value token throws first, in which case it ends with that exception. For a
string argument, whose conversion cannot throw, it is always the "no more values to
parse" exit. The run ends at or before the offending token: every index of the token
list read in this iteration is within the list. -/
theorem arity_violation_fails {F D : Type} (env : Env F D) (num_required : Nat)
    (r : ArgParse) (prog : String) (toks : List String) (store : Store F D)
    (st : PState F D) (t : String) (ty : Ty) (arg : Argument) (L : Nat)
    (hex : examines env num_required r toks store st) (ht : toks[st.idx]? = some t)
    (hsel : (ptrs_by_name r t).select = some (ty, arg))
    (hlen : arg.length = (L : Int)) (hL : 1 ≤ L)
    (hbad : ∃ j tok, j < L ∧ toks[st.idx + 1 + j]? = some tok ∧ starts_dash tok = true) :
    ∃ e st1, (parse env num_required r prog toks store).2 = .exited e st1 ∧
      (e = .no_more_values arg.name arg.short_name arg.length ∨
        ∃ j tok, j < L ∧ toks[st.idx + 1 + j]? = some tok ∧ starts_dash tok = false ∧
          conversion_funct env ty tok = none ∧ e = .conversion_exception tok) ∧
      (ty = .str → e = .no_more_values arg.name arg.short_name arg.length) ∧
      (∀ m, m ∈ st1.reads → m ∈ st.reads ∨ m < toks.length) := by
  have hread := read_token_of_get env toks st.idx t ht
  rw [← hread] at hsel
  have hlt : st.idx < toks.length := (List.getElem?_eq_some.1 ht).1
  have hne : arg.length ≠ 0 := by omega
  have htoNat : arg.length.toNat = L := by omega
  have hparse := parse_arg_values env toks ty arg (read_token env toks st.idx)
    { idx := st.idx, store := st.store, reads := st.idx :: st.reads } hne
  rw [htoNat] at hparse
  obtain ⟨j0, tok0, hj0, htok0, hd0⟩ := hbad
  have hin0 : st.idx + 1 + j0 < toks.length := (List.getElem?_eq_some.1 htok0).1
  have hv0 : value_ok toks (st.idx + 1 + j0) = false :=
    (value_ok_eq_false_iff toks _).2 (Or.inr ⟨tok0, htok0, hd0⟩)
  obtain ⟨e, st1, hloop, hcases⟩ := parse_arg_loop_bad env toks ty arg L 0
    { idx := st.idx, store := st.store, reads := st.idx :: st.reads } ⟨j0, hj0, hv0⟩
  have hb := named_body_of_parse_arg_error env r toks st ty arg (e, st1) hsel
    (hparse.trans hloop)
  have hdisj : e = .no_more_values arg.name arg.short_name arg.length ∨
      ∃ j tok, j < L ∧ toks[st.idx + 1 + j]? = some tok ∧ starts_dash tok = false ∧
        conversion_funct env ty tok = none ∧ e = .conversion_exception tok := by
    rcases hcases with h | ⟨j, hj, hv, hc, he⟩
    · exact Or.inl h
    · obtain ⟨tok, htok, hd⟩ := (value_ok_iff_exists toks _).1 hv
      simp only at htok
      rw [read_token_of_get env toks _ tok htok] at hc he
      exact Or.inr ⟨j, tok, hj, htok, hd, hc, he⟩
  refine ⟨e, st1, parse_exits_of_examines env num_required r prog toks store st st1 e hex hb,
    hdisj, ?_, ?_⟩
  · intro hty
    rcases hdisj with h | ⟨_, tok, _, _, _, hc, _⟩
    · exact h
    · subst hty
      simp [conversion_funct] at hc
  · intro m hm
    rcases parse_arg_loop_dash_reads env toks ty arg L 0 _ st1 e hloop
        ⟨j0, hj0, hin0, hv0⟩ m hm with h1 | h1
    · simp only [List.mem_cons] at h1
      rcases h1 with h1 | h1
      · right; omega
      · exact Or.inl h1
    · exact Or.inr h1

theorem arity_violation_fails_witness :
    ∃ st, examines env0 0 flag_registry ["--range", "3", "-v"] store0 st ∧
      ["--range", "3", "-v"][st.idx]? = some "--range" ∧
      (ptrs_by_name flag_registry "--range").select = some (.int, range_argument) ∧
      (∃ j tok, j < 2 ∧ ["--range", "3", "-v"][st.idx + 1 + j]? = some tok ∧
        starts_dash tok = true) ∧
      ∃ e st1, (parse env0 0 flag_registry "prog" ["--range", "3", "-v"] store0).2
          = .exited e st1 ∧
        (e = .no_more_values "--range" "-r" 2 ∨ e = .conversion_exception "3") := by
  obtain ⟨st, hex, hidx⟩ := examines_of_observed env0 0 flag_registry
    ["--range", "3", "-v"] store0 0 0 (by decide) (by decide) (by decide!) (by decide)
  have ht : ["--range", "3", "-v"][st.idx]? = some "--range" := by rw [hidx]; rfl
  have hsel : (ptrs_by_name flag_registry "--range").select = some (.int, range_argument) := by
    decide
  have hbad : ∃ j tok, j < 2 ∧ ["--range", "3", "-v"][st.idx + 1 + j]? = some tok ∧
      starts_dash tok = true := ⟨1, "-v", by decide, by rw [hidx]; rfl, by decide⟩
  obtain ⟨e, st1, hout, hdisj, _, _⟩ :=
    arity_violation_fails env0 0 flag_registry "prog" ["--range", "3", "-v"] store0 st
      "--range" .int range_argument 2 hex ht hsel rfl (by decide) hbad
  refine ⟨st, hex, ht, hsel, hbad, e, st1, hout, ?_⟩
  rcases hdisj with h | ⟨j, tok, hj, htok, hd, _, he⟩
  · exact Or.inl h
  · right
    rw [hidx] at htok
    have hj' : j = 0 ∨ j = 1 := by omega
    rcases hj' with rfl | rfl
    · have : tok = "3" := by simpa using htok.symm
      rw [he, this]
    · have : tok = "-v" := by simpa using htok.symm
      subst this
      exact absurd hd (by decide)

/-- C5. Unknown token: when some token begins with `'-'` and is a key of no partition,
`parse` does not return: it ends in an exit (the token is never skipped); and when the
named phase examines that token as an argument name, the exit is the "unrecognized
argument" one, taken before anything is written. -/
theorem unknown_dash_token_fails {F D : Type} (env : Env F D) (num_required : Nat)
    (r : ArgParse) (prog : String) (toks : List String) (store : Store F D) (t : String)
    (hmem : t ∈ toks) (hdash : starts_dash t = true) (hkey : ¬ is_key r t) :
    (∃ e st, (parse env num_required r prog toks store).2 = .exited e st) ∧
    ∀ st, examines env num_required r toks store st → toks[st.idx]? = some t →
      (parse env num_required r prog toks store).2 =
        .exited (.unrecognized t)
          { idx := st.idx, store := st.store, reads := st.idx :: st.reads } := by
  constructor
  · cases hout : (parse env num_required r prog toks store).2 with
    | returned st =>
      obtain ⟨j, hj, hjt⟩ := List.getElem_of_mem hmem
      have hget : toks[j]? = some t := by rw [List.getElem?_eq_getElem hj, hjt]
      exact absurd (parse_returned_known env num_required r prog toks store st hout
        j t hj hget hdash) hkey
    | exited e st => exact ⟨e, st, rfl⟩
    | out_of_fuel => exact absurd hout (parse_ne_out_of_fuel env num_required r prog toks store)
  · intro st hex hget
    have hread := read_token_of_get env toks st.idx t hget
    have hsel : (ptrs_by_name r (read_token env toks st.idx)).select = none := by
      rw [hread]; exact (select_eq_none_iff r t).2 hkey
    have hb := named_body_unrecognized env r toks st hsel
    rw [hread] at hb
    exact parse_exits_of_examines env num_required r prog toks store st _ _ hex hb

theorem unknown_dash_token_fails_witness :
    ("-q" ∈ ["--x", "5", "-q"] ∧ starts_dash "-q" = true ∧ ¬ is_key sample_registry "-q") ∧
    (∃ e st, (parse env0 0 sample_registry "prog" ["--x", "5", "-q"] store0).2
      = .exited e st) ∧
    ∃ st, (parse env0 0 sample_registry "prog" ["--x", "5", "-q"] store0).2
      = .exited (.unrecognized "-q") st := by
  have hkey : ¬ is_key sample_registry "-q" := by
    rw [← exists_already_eq_false_iff]; decide
  have hthm := unknown_dash_token_fails env0 0 sample_registry "prog" ["--x", "5", "-q"]
    store0 "-q" (by decide) (by decide) hkey
  obtain ⟨st, hex, hidx⟩ := examines_of_observed env0 0 sample_registry ["--x", "5", "-q"]
    store0 1 2 (by decide) (by decide) (by decide!) (by decide)
  refine ⟨⟨by decide, by decide, hkey⟩, hthm.1, _, hthm.2 st hex ?_⟩
  rw [hidx]; rfl

/-- C6. Help precedence: whatever the registry (it may register `--help` or `-h` itself),
the counter and the other tokens, when `--help` or `-h` is among the tokens `parse` ends
in the help exit, in its initial state: the caller's memory is as it was and neither
phase has read a token. -/
theorem help_precedes_everything {F D : Type} (env : Env F D) (num_required : Nat)
    (r : ArgParse) (prog : String) (toks : List String) (store : Store F D)
    (h : "--help" ∈ toks ∨ "-h" ∈ toks) :
    (parse env num_required r prog toks store).2 =
      .exited .help { idx := 0, store := store, reads := [] } := by
  have hany : toks.any is_help = true := by
    rw [List.any_eq_true]
    rcases h with h | h
    · exact ⟨_, h, by decide⟩
    · exact ⟨_, h, by decide⟩
  rw [parse_outcome]
  simp [hany]

theorem help_precedes_everything_witness :
    ("--help" ∈ ["-x", "--help", "oops"] ∨ "-h" ∈ ["-x", "--help", "oops"]) ∧
    (parse env0 5 help_registry "prog" ["-x", "--help", "oops"] store0).2 =
      .exited .help { idx := 0, store := store0, reads := [] } :=
  ⟨by decide, help_precedes_everything env0 5 help_registry "prog" ["-x", "--help", "oops"]
    store0 (by decide)⟩

/-- C7. Insufficient positionals: for a registry holding `required_count r` required
arguments (the counter `argparse_num_required` is at least that, as every required
argument was counted when constructed) and fewer tokens than that, `parse` exits (through
the sufficiency check, or the help check when a token is `--help`/`-h`) in its initial
state: no token has been read or converted and the caller's memory is as it was. -/
theorem insufficient_positionals_exit_first {F D : Type} (env : Env F D) (num_required : Nat)
    (r : ArgParse) (prog : String) (toks : List String) (store : Store F D)
    (hcount : required_count r ≤ num_required) (hlt : toks.length < required_count r) :
    ∃ e, (e = Exit.insufficient ∨ e = Exit.help) ∧
      (parse env num_required r prog toks store).2 =
        .exited e { idx := 0, store := store, reads := [] } := by
  have hn : toks.length < num_required := by omega
  rw [parse_outcome]
  by_cases hany : toks.any is_help = true
  · exact ⟨.help, Or.inr rfl, by simp [hany]⟩
  · exact ⟨.insufficient, Or.inl rfl, by simp [hany, hn]⟩

theorem insufficient_positionals_exit_first_witness :
    ∃ e, (e = Exit.insufficient ∨ e = Exit.help) ∧
      (parse env0 1 one_required_registry "prog" [] store0).2 =
        .exited e { idx := 0, store := store0, reads := [] } :=
  insufficient_positionals_exit_first env0 1 one_required_registry "prog" [] store0
    (by decide) (by decide)

/-- C8 (as stated, at a concrete input). The optional bool `--verbose` declared with
length 0 through the four-parameter constructor is stored with length 1: on
`["--verbose", "0"]` the run consumes the value token `"0"` (it returns with `idx = 2` and
the cell `false`), and on `["--verbose"]` alone it is not a flag: `parse` ends in the "no
more values to parse" exit and the cell is never set. -/
theorem declared_zero_is_stored_as_one :
    built_length (Argument.ctor1 0 "--verbose" "be verbose" 0 0) = some 1 ∧
    declared_zero_run ["--verbose", "0"] =
      some { returned := true, exit := none, idx := 2, flag := false } ∧
    declared_zero_run ["--verbose"] =
      some { returned := false, exit := some (.no_more_values "--verbose" "" 1), idx := 1,
             flag := false } := by
  refine ⟨?_, ?_, ?_⟩ <;> decide!

/-- C8 (amended). Declared length: when an iteration of the named loop matches a token to
an optional argument and completes, the number of value tokens consumed after the name
token (`idx` moves past the name token and that many more) is the declared length `L`
(taken as 0 when negative) for an argument built by the five-parameter constructor (none
for `L = 0`, a flag), and
for a dash-named argument built by the four-parameter constructor it is `L` when
`L >= 2` and 1 otherwise, so such an argument always consumes at least one value. -/
theorem consumed_values_follow_constructor {F D : Type} (env : Env F D) (r : ArgParse)
    (toks : List String) (st st' : PState F D) (t : String) (ty : Ty) (arg : Argument)
    (L : Int) (ht : toks[st.idx]? = some t)
    (hsel : (ptrs_by_name r t).select = some (ty, arg))
    (hb : named_body env r toks st = .ok st') :
    (∀ short_name name message value,
      Argument.ctor2 short_name name message value L = .ok arg →
        st'.idx = st.idx + 1 + L.toNat) ∧
    (∀ n name message value n',
      Argument.ctor1 n name message value L = .ok (arg, n') → arg.required = false →
        st'.idx = st.idx + 1 + (if L < 2 then 1 else L.toNat)) := by
  have hidx : st'.idx = st.idx + 1 + arg.length.toNat := by
    obtain ⟨ty', arg', hsel', h1, _⟩ := named_body_ok env r toks st st' hb
    rw [read_token_of_get env toks st.idx t ht, hsel] at hsel'
    simp only [Option.some.injEq, Prod.mk.injEq] at hsel'
    rw [hsel'.2]; exact h1
  constructor
  · intro short_name name message value hc
    unfold Argument.ctor2 at hc
    split at hc
    · exact absurd hc (by simp)
    · split at hc
      · exact absurd hc (by simp)
      · simp only [Except.ok.injEq] at hc
        subst hc
        exact hidx
  · intro n name message value n' hc hreq
    unfold Argument.ctor1 at hc
    split at hc
    · exact absurd hc (by simp)
    · split at hc
      · split at hc
        · exact absurd hc (by simp)
        · simp only [Except.ok.injEq, Prod.mk.injEq] at hc
          obtain ⟨hc, _⟩ := hc
          subst hc
          simp only at hidx
          rw [hidx]
          split <;> simp
      · split at hc
        · split at hc
          · exact absurd hc (by simp)
          · simp only [Except.ok.injEq, Prod.mk.injEq] at hc
            obtain ⟨hc, _⟩ := hc
            subst hc
            simp only at hidx
            rw [hidx]
            split <;> simp
        · simp only [Except.ok.injEq, Prod.mk.injEq] at hc
          obtain ⟨hc, _⟩ := hc
          subst hc
          simp at hreq

theorem consumed_values_follow_constructor_witness :
    (∃ st', named_body env0 flag_registry ["-v", "x"] (initial_state store0) = .ok st' ∧
      Argument.ctor2 "-v" "--verbose" "be verbose" 0 0 = .ok verbose_flag ∧
      st'.idx = 0 + 1 + 0) ∧
    (∃ st', named_body env0 sample_registry ["--x", "5"] (initial_state store0) = .ok st' ∧
      Argument.ctor1 0 "--x" "m" 0 0 = .ok (sample_optional "--x" "", 0) ∧
      st'.idx = 0 + 1 + 1) := by
  constructor
  · cases hb : named_body env0 flag_registry ["-v", "x"] (initial_state store0) with
    | error x =>
      have h : (named_body env0 flag_registry ["-v", "x"]
          (initial_state store0)).toOption.isSome = true := by decide!
      rw [hb] at h
      exact absurd h (by simp [Except.toOption])
    | ok st' =>
      have hc : Argument.ctor2 "-v" "--verbose" "be verbose" 0 0 = .ok verbose_flag := rfl
      exact ⟨st', rfl, hc,
        (consumed_values_follow_constructor env0 flag_registry ["-v", "x"]
          (initial_state store0) st' "-v" .bool verbose_flag 0 rfl (by decide) hb).1
          _ _ _ _ hc⟩
  · cases hb : named_body env0 sample_registry ["--x", "5"] (initial_state store0) with
    | error x =>
      have h : (named_body env0 sample_registry ["--x", "5"]
          (initial_state store0)).toOption.isSome = true := by decide!
      rw [hb] at h
      exact absurd h (by simp [Except.toOption])
    | ok st' =>
      have hc : Argument.ctor1 0 "--x" "m" 0 0 = .ok (sample_optional "--x" "", 0) := rfl
      exact ⟨st', rfl, hc,
        (consumed_values_follow_constructor env0 sample_registry ["--x", "5"]
          (initial_state store0) st' "--x" .int (sample_optional "--x" "") 0 rfl (by decide)
          hb).2 _ _ _ _ _ hc rfl⟩

/-- C9 (as stated, at a concrete input). The named phase examines token 0 = `--x`, which it
matches to an int argument of stored length 1; token 1 = `abc` exists and does not begin
with `'-'`; yet no slot receives a conversion and no further token is examined: `parse`
ends with the exception of `std::stoi` and `ints[0]` keeps its prior value 0. -/
theorem value_consumption_fails_on_bad_number :
    named_idx_after env0 0 sample_registry ["--x", "abc"] store0 0 = some 0 ∧
    (ptrs_by_name sample_registry "--x").select = some (.int, sample_optional "--x" "") ∧
    (sample_optional "--x" "").length = 1 ∧
    values_ok ["--x", "abc"] 0 1 = true ∧
    (parse env0 0 sample_registry "prog" ["--x", "abc"] store0).2.exit?
      = some (.conversion_exception "abc") ∧
    ((parse env0 0 sample_registry "prog" ["--x", "abc"] store0).2.state?.map
      fun st => st.store.ints 0) = some 0 := by
  refine ⟨?_, ?_, ?_, ?_, ?_, ?_⟩ <;> decide!

/-- C9 (amended). Value consumption: when the named phase examines token `i = st.idx`,
matches it to an argument of stored length `L >= 1`, the tokens `i+1 .. i+L` all exist,
none begins with `'-'`, and each of them converts to the argument's type (no conversion
throws), then the iteration completes; for every `j < L` slot `j` of the bound storage
holds the conversion of token `i+1+j`; every cell outside these slots is as before; and
`idx` becomes `i+L+1`, so token `i+L+1` is the next one examined as an argument name (or
`parse` returns when there is none). -/
theorem values_are_converted_into_slots {F D : Type} (env : Env F D) (num_required : Nat)
    (r : ArgParse) (prog : String) (toks : List String) (store : Store F D)
    (st : PState F D) (t : String) (ty : Ty) (arg : Argument) (L : Nat)
    (hex : examines env num_required r toks store st) (ht : toks[st.idx]? = some t)
    (hsel : (ptrs_by_name r t).select = some (ty, arg))
    (hlen : arg.length = (L : Int)) (hL : 1 ≤ L)
    (hvals : ∀ j, j < L → ∃ tok, toks[st.idx + 1 + j]? = some tok ∧ starts_dash tok = false ∧
      conversion_funct env ty tok ≠ none) :
    ∃ st', named_body env r toks st = .ok st' ∧
      (∀ j, j < L → ∃ tok, toks[st.idx + 1 + j]? = some tok ∧
        conversion_funct env ty tok = some (st'.store.read ty (arg.value + j))) ∧
      (∀ ty' addr, (ty' ≠ ty ∨ addr < arg.value ∨ arg.value + L ≤ addr) →
        st'.store.read ty' addr = st.store.read ty' addr) ∧
      st'.idx = st.idx + L + 1 ∧
      (st'.idx < toks.length → examines env num_required r toks store st') ∧
      (¬ st'.idx < toks.length →
        (parse env num_required r prog toks store).2 = .returned st') := by
  have hread := read_token_of_get env toks st.idx t ht
  rw [← hread] at hsel
  have hne : arg.length ≠ 0 := by omega
  have htoNat : arg.length.toNat = L := by omega
  have hparse := parse_arg_values env toks ty arg (read_token env toks st.idx)
    { idx := st.idx, store := st.store, reads := st.idx :: st.reads } hne
  rw [htoNat] at hparse
  obtain ⟨st2, hloop⟩ := parse_arg_loop_good env toks ty arg L 0
    { idx := st.idx, store := st.store, reads := st.idx :: st.reads }
    (by
      intro j hj
      obtain ⟨tok, h1, h2, _⟩ := hvals j hj
      exact (value_ok_iff_exists toks _).2 ⟨tok, h1, h2⟩)
    (by
      intro j hj
      obtain ⟨tok, h1, _, h3⟩ := hvals j hj
      rw [read_token_of_get env toks _ tok h1]
      exact h3)
  obtain ⟨h1, _, h3, h4⟩ := parse_arg_loop_ok env toks ty arg L 0 _ st2 hloop
  simp only [Nat.add_zero] at h1 h3 h4
  have hb := named_body_of_parse_arg_ok env r toks st st2 ty arg hsel (hparse.trans hloop)
  refine ⟨_, hb, ?_, h4, by simp only; omega,
    after_named_body env num_required r prog toks store st _ hex hb⟩
  intro j hj
  obtain ⟨tok, htok, _, _⟩ := hvals j hj
  refine ⟨tok, htok, ?_⟩
  have := h3 j hj
  rwa [read_token_of_get env toks _ tok htok] at this

theorem values_are_converted_into_slots_witness :
    ∃ st st', examines env0 0 flag_registry ["--range", "3", "9", "-v"] store0 st ∧
      ["--range", "3", "9", "-v"][st.idx]? = some "--range" ∧
      (ptrs_by_name flag_registry "--range").select = some (.int, range_argument) ∧
      named_body env0 flag_registry ["--range", "3", "9", "-v"] st = .ok st' ∧
      st'.store.ints 0 = 3 ∧ st'.store.ints 1 = 9 ∧ st'.idx = 3 ∧
      examines env0 0 flag_registry ["--range", "3", "9", "-v"] store0 st' := by
  obtain ⟨st, hex, hidx⟩ := examines_of_observed env0 0 flag_registry
    ["--range", "3", "9", "-v"] store0 0 0 (by decide) (by decide) (by decide!) (by decide)
  have ht : ["--range", "3", "9", "-v"][st.idx]? = some "--range" := by rw [hidx]; rfl
  have hsel : (ptrs_by_name flag_registry "--range").select = some (.int, range_argument) := by
    decide
  have h3 : stoi "3" = some 3 := by decide
  have h9 : stoi "9" = some 9 := by decide
  obtain ⟨st', hb, hslots, _, hi, hnext, _⟩ :=
    values_are_converted_into_slots env0 0 flag_registry "prog" ["--range", "3", "9", "-v"]
      store0 st "--range" .int range_argument 2 hex ht hsel rfl (by decide)
      (by
        intro j hj
        rw [hidx]
        have hj' : j = 0 ∨ j = 1 := by omega
        rcases hj' with rfl | rfl
        · exact ⟨"3", rfl, by decide, by simp [conversion_funct, h3]⟩
        · exact ⟨"9", rfl, by decide, by simp [conversion_funct, h9]⟩)
  have hidx' : st'.idx = 3 := by rw [hi, hidx]
  refine ⟨st, st', hex, ht, hsel, hb, ?_, ?_, hidx', hnext (by rw [hidx']; decide)⟩
  · obtain ⟨tok, htok, hconv⟩ := hslots 0 (by decide)
    rw [hidx] at htok
    have : tok = "3" := by simpa using htok.symm
    subst this
    simpa [conversion_funct, h3, Store.read, range_argument] using hconv.symm
  · obtain ⟨tok, htok, hconv⟩ := hslots 1 (by decide)
    rw [hidx] at htok
    have : tok = "9" := by simpa using htok.symm
    subst this
    simpa [conversion_funct, h9, Store.read, range_argument] using hconv.symm

/-- C10. Flag: when the named phase examines a token that it matches (under either key) to
a bool argument of stored length 0, the iteration completes, the bound cell becomes
`true`, every other cell is left as it was, and no further token is consumed: `idx` moves
by one, so the token right after is the next one examined as an argument name (or, when
there is none, `parse` returns in that state). -/
theorem flag_sets_true_and_consumes_nothing {F D : Type} (env : Env F D) (num_required : Nat)
    (r : ArgParse) (prog : String) (toks : List String) (store : Store F D)
    (st : PState F D) (t : String) (arg : Argument)
    (hex : examines env num_required r toks store st) (ht : toks[st.idx]? = some t)
    (hsel : (ptrs_by_name r t).select = some (.bool, arg)) (hlen : arg.length = 0) :
    ∃ st', named_body env r toks st = .ok st' ∧
      st'.store.bools arg.value = true ∧
      (∀ ty addr, (ty ≠ .bool ∨ addr ≠ arg.value) →
        st'.store.read ty addr = st.store.read ty addr) ∧
      st'.idx = st.idx + 1 ∧ st'.reads = st.idx :: st.reads ∧
      (st'.idx < toks.length → examines env num_required r toks store st') ∧
      (¬ st'.idx < toks.length →
        (parse env num_required r prog toks store).2 = .returned st') := by
  have hread := read_token_of_get env toks st.idx t ht
  rw [← hread] at hsel
  have hb := named_body_of_parse_arg_ok env r toks st _ .bool arg hsel
    (parse_arg_flag env toks .bool arg _ _ hlen)
  refine ⟨_, hb, ?_, ?_, rfl, rfl, after_named_body env num_required r prog toks store st _ hex hb⟩
  · simp [Store.write, acceptance_function]
  · intro ty addr hne
    show (st.store.write arg.value
      (acceptance_function env .bool (read_token env toks st.idx))).read ty addr
        = st.store.read ty addr
    apply read_write_other
    rcases hne with hne | hne
    · left; rw [acceptance_ty]; exact fun e => hne e.symm
    · right; exact hne

theorem flag_sets_true_and_consumes_nothing_witness :
    ∃ st st', examines env0 0 flag_registry ["-v", "--verbose"] store0 st ∧
      ["-v", "--verbose"][st.idx]? = some "-v" ∧
      (ptrs_by_name flag_registry "-v").select = some (.bool, verbose_flag) ∧
      named_body env0 flag_registry ["-v", "--verbose"] st = .ok st' ∧
      st'.store.bools 0 = true ∧ st'.idx = st.idx + 1 ∧
      examines env0 0 flag_registry ["-v", "--verbose"] store0 st' := by
  obtain ⟨st, hex, hidx⟩ := examines_of_observed env0 0 flag_registry ["-v", "--verbose"]
    store0 0 0 (by decide) (by decide) (by decide!) (by decide)
  have ht : ["-v", "--verbose"][st.idx]? = some "-v" := by rw [hidx]; rfl
  have hsel : (ptrs_by_name flag_registry "-v").select = some (.bool, verbose_flag) := by
    decide
  obtain ⟨st', hb, hval, _, hi, _, hnext, _⟩ :=
    flag_sets_true_and_consumes_nothing env0 0 flag_registry "prog" ["-v", "--verbose"] store0
      st "-v" verbose_flag hex ht hsel rfl
  exact ⟨st, st', hex, ht, hsel, hb, hval, hi, hnext (by rw [hi, hidx]; decide)⟩

/-- C11. Lookup by either name: after a successful `add` of an optional argument with a
non-empty short name, `find` in the partition of its type returns that very argument
(hence the same name, short name, message, bound storage, required flag, positional and
length) both under its long name and under its short name; and both lookups still return
it after any further sequence of successful registrations. -/
theorem lookup_by_either_name (ty : Ty) (arg : Argument) (r r' r'' : ArgParse)
    (more : List (Ty × Argument)) (hadd : add ty arg r = .ok r')
    (hopt : arg.required = false) (hshort : arg.short_name ≠ "")
    (hmore : add_all more r' = .ok r'') :
    find arg.name (r'.part ty) = some arg ∧ find arg.short_name (r'.part ty) = some arg ∧
    find arg.name (r''.part ty) = some arg ∧ find arg.short_name (r''.part ty) = some arg := by
  have h1 := find_name_after_add ty arg r r' hadd
  have h2 := find_short_name_after_add ty arg r r' hadd hopt hshort
  exact ⟨h1, h2, find_add_all_preserved more r' r'' ty _ arg hmore h1,
    find_add_all_preserved more r' r'' ty _ arg hmore h2⟩

theorem lookup_by_either_name_witness :
    add .bool verbose_flag ArgParse.empty = .ok verbose_registry ∧
    add_all [(.int, range_argument)] verbose_registry = .ok flag_registry ∧
    find "--verbose" (verbose_registry.part .bool) = some verbose_flag ∧
    find "-v" (verbose_registry.part .bool) = some verbose_flag ∧
    find "--verbose" (flag_registry.part .bool) = some verbose_flag ∧
    find "-v" (flag_registry.part .bool) = some verbose_flag :=
  ⟨rfl, rfl,
   lookup_by_either_name .bool verbose_flag ArgParse.empty verbose_registry flag_registry
     [(.int, range_argument)] rfl rfl (by decide) rfl⟩

/-- C12. Positional index assignment: run any sequence of constructor calls (of either
constructor, the value type plays no part) from a counter of 0 and let `args` be the
arguments built, in order. Then the required arguments, in order of declaration, have the
positional indices 0, 1, 2, ... (the N-th has `positional = N`), the counter at the end
is the number of required arguments declared, so the indices in use are exactly
`0 .. count-1` without duplicate; every optional argument has `positional = -1`; and the
construction of an optional argument leaves the counter unchanged, whatever its value. -/
theorem positional_indices_are_dense (ds : List Decl) (args : List Argument) (n : Nat)
    (h : construct_all 0 ds = .ok (args, n)) :
    n = (args.filter fun a => a.required).length ∧
    (args.filter fun a => a.required).map (fun a => a.positional) =
      (List.range n).map (fun k : Nat => (k : Int)) ∧
    (∀ a, a ∈ args → a.required = false → a.positional = -1) ∧
    ∀ c d a c', construct c d = .ok (a, c') → a.required = false → c' = c := by
  obtain ⟨h1, h2, h3⟩ := construct_all_from ds 0 args n h
  simp only [Nat.zero_add] at h1 h2
  refine ⟨h1, by rw [h1]; exact h2, h3, ?_⟩
  intro c d a c' hc hreq
  rcases construct_step c d a c' hc with ⟨hr, _, _⟩ | ⟨_, _, hc'⟩
  · rw [hreq] at hr; exact absurd hr (by simp)
  · exact hc'

theorem positional_indices_are_dense_witness :
    construct_all 0 sample_decls = .ok (sample_built, 2) ∧
    2 = (sample_built.filter fun a => a.required).length ∧
    (sample_built.filter fun a => a.required).map (fun a => a.positional) =
      (List.range 2).map (fun k : Nat => (k : Int)) :=
  ⟨rfl, (positional_indices_are_dense sample_decls sample_built 2 rfl).1,
   (positional_indices_are_dense sample_decls sample_built 2 rfl).2.1⟩

/-- C13. Positional ordering error: with no `--help`/`-h` among the tokens and at least as
many tokens as the counter of required arguments, when the positional phase has completed
the positions before `p` and the token it examines for position `p` begins with `'-'`
(a negative number such as `-5` included), `parse` ends in the "invalid argument at
position" exit for that token and position, and nothing is written for position `p`: the
caller's memory is as the earlier positions left it. -/
theorem dash_token_at_position_exits {F D : Type} (env : Env F D) (num_required : Nat)
    (r : ArgParse) (prog : String) (toks : List String) (store : Store F D) (p : Nat)
    (st : PState F D) (t : String)
    (hhelp : toks.any is_help = false) (hnum : ¬ toks.length < num_required)
    (hp : p < num_required)
    (hreach : positional_loop env r toks p 0 (initial_state store) = .ok st)
    (ht : toks[st.idx]? = some t) (hdash : starts_dash t = true) :
    (parse env num_required r prog toks store).2 =
      .exited (.invalid_position t p)
        { idx := st.idx, store := st.store, reads := st.idx :: st.reads } := by
  have hne : toks.isEmpty = false := by
    cases toks with
    | nil => simp at ht
    | cons _ _ => rfl
  have hread := read_token_of_get env toks st.idx t ht
  have hbody := positional_body_dash env r toks p st (by rw [hread]; exact hdash)
  rw [hread] at hbody
  obtain ⟨k, hk⟩ : ∃ k, num_required = p + (k + 1) := ⟨num_required - p - 1, by omega⟩
  have hloop : positional_loop env r toks num_required 0
      { idx := 0, store := store, reads := [] } =
      .error (.invalid_position t p,
        { idx := st.idx, store := st.store, reads := st.idx :: st.reads }) := by
    rw [hk, positional_loop_add]
    have hreach' : positional_loop env r toks p 0 { idx := 0, store := store, reads := [] }
        = .ok st := hreach
    rw [hreach']
    simp only [Nat.zero_add]
    rw [positional_loop, hbody]
  rw [parse_outcome]
  simp only [hhelp, hnum, hne, Bool.false_eq_true, if_false, hloop]

theorem dash_token_at_position_exits_witness :
    (parse env0 1 one_required_registry "prog" ["-5", "x"] store0).2 =
      .exited (.invalid_position "-5" 0) { idx := 0, store := store0, reads := [0] } :=
  dash_token_at_position_exits env0 1 one_required_registry "prog" ["-5", "x"] store0 0
    (initial_state store0) "-5" (by decide) (by decide) (by decide) rfl rfl (by decide)

/-- C14 (evaluation at a failing input). With the optional arguments `--a-z` and `--b-a`
registered, help renders the optional arguments in the order `--b-a`, `--help`, `--a-z`:
sorted by the text after the last dash (`a`, `help`, `z`), but not in non-decreasing
order of the names with their leading dashes stripped (`b-a`, `help`, `a-z`). -/
theorem help_order_ignores_text_before_inner_dash :
    inner_dash_help_names = some ["--b-a", "--help", "--a-z"] ∧
    names_sorted_by sort_name ["--b-a", "--help", "--a-z"] = true ∧
    names_sorted_by strip_dashes ["--b-a", "--help", "--a-z"] = false ∧
    strip_dashes "--a-z" = "a-z" ∧ sort_name "--a-z" = "z" := by
  refine ⟨?_, ?_, ?_, ?_, ?_⟩ <;> decide!

/-- C15. Help de-duplication: for a registry built from the empty one by the successful
registrations `decls`, the optional-arguments list that help renders is, up to order,
the entries of the optional arguments among `decls` followed by the built-in `--help`
entry; these entries are pairwise distinct, so every registered optional argument is
listed exactly once although it is stored under two keys; and no required argument is
listed. -/
theorem help_lists_each_optional_once (decls : List (Ty × Argument)) (r : ArgParse)
    (h : add_all decls ArgParse.empty = .ok r) :
    (help_optional_args r).Perm (optional_infos decls ++ [help_info]) ∧
    (optional_infos decls ++ [help_info]).Nodup ∧
    ∀ d, d ∈ decls → d.2.required = true → info_of d.1 d.2 ∉ help_optional_args r := by
  have hreg : registered r decls := by
    have := registered_add_all decls ArgParse.empty r [] registered_empty h
    simpa using this
  obtain ⟨hperm, hnodup⟩ := optional_args_map_perm r decls hreg
  have hfull : (help_optional_args r).Perm (optional_infos decls ++ [help_info]) :=
    (sort_infos_perm _).trans (List.Perm.append_right _ hperm)
  refine ⟨hfull, ?_, ?_⟩
  · rw [List.nodup_append]
    refine ⟨hnodup, by simp, ?_⟩
    intro i hi hi'
    simp only [List.mem_singleton] at hi'
    subst hi'
    unfold optional_infos at hi
    obtain ⟨d, _, hd⟩ := List.mem_map.1 hi
    exact info_of_ne_help_info d.1 d.2 hd
  · intro d hd hreq hmem
    have hmem' := (List.Perm.mem_iff hfull).1 hmem
    simp only [List.mem_append, List.mem_singleton] at hmem'
    rcases hmem' with hm | hm
    · unfold optional_infos at hm
      obtain ⟨d', hd', he⟩ := List.mem_map.1 hm
      obtain ⟨hd1, hd2⟩ := List.mem_filter.1 hd'
      have hname : d'.2.name = d.2.name := by
        have := congrArg argument_info.name he
        simpa [info_of] using this
      have := List.inj_on_of_nodup_map hreg.2.2 hd1 hd hname
      subst this
      rw [hreq] at hd2
      exact absurd hd2 (by simp)
    · exact info_of_ne_help_info d.1 d.2 hm

theorem help_lists_each_optional_once_witness :
    add_all mixed_decls ArgParse.empty = .ok mixed_registry ∧
    (help_optional_args mixed_registry).Perm
      ([info_of .bool verbose_flag, info_of .int range_argument] ++ [help_info]) ∧
    info_of .str input_argument ∉ help_optional_args mixed_registry :=
  ⟨rfl, (help_lists_each_optional_once mixed_decls mixed_registry rfl).1,
   (help_lists_each_optional_once mixed_decls mixed_registry rfl).2.2
     (.str, input_argument) (by decide) rfl⟩

/-- C16 (as stated, at a concrete input). The five-parameter constructor accepts the bare
name `integer` (with the short name `-i`) and builds an argument that is not required,
although its declared name does not begin with `'-'`. -/
theorem five_param_bare_name_is_optional :
    Argument.ctor2 "-i" "integer" "an integer" 0 1 =
      .ok { name := "integer", short_name := "-i", message := "an integer", value := 0,
            required := false, positional := -1, length := 1 } ∧
    starts_dash "integer" = false := by
  constructor
  · rfl
  · decide

/-- C16 (amended). For every argument the four-parameter constructor accepts, `required`
is true if and only if the declared name does not begin with `'-'`; every argument the
five-parameter constructor accepts has `required` false, whatever its name. -/
theorem required_iff_bare_name_four_param (n : Nat) (short_name name message : String)
    (value : Nat) (length : Int) (a : Argument) (n' : Nat) :
    (Argument.ctor1 n name message value length = .ok (a, n') →
      (a.required = true ↔ starts_dash name = false)) ∧
    (Argument.ctor2 short_name name message value length = .ok a → a.required = false) := by
  constructor
  · intro h
    unfold Argument.ctor1 at h
    split at h
    · exact absurd h (by simp)
    · split at h
      · rename_i h2
        have hd : starts_dash name = true := by
          unfold starts_two_dashes at h2
          unfold starts_dash
          split at h2
          · rename_i c d rest heq
            rw [heq]
            simp only [Bool.and_eq_true] at h2
            exact h2.1
          · exact absurd h2 (by simp)
        split at h
        · exact absurd h (by simp)
        · simp only [Except.ok.injEq, Prod.mk.injEq] at h
          obtain ⟨h, _⟩ := h
          subst h
          simp [hd]
      · split at h
        · rename_i hd
          split at h
          · exact absurd h (by simp)
          · simp only [Except.ok.injEq, Prod.mk.injEq] at h
            obtain ⟨h, _⟩ := h
            subst h
            simp [hd]
        · rename_i hd
          simp only [Except.ok.injEq, Prod.mk.injEq] at h
          obtain ⟨h, _⟩ := h
          subst h
          simpa using hd
  · intro h
    unfold Argument.ctor2 at h
    split at h
    · exact absurd h (by simp)
    · split at h
      · exact absurd h (by simp)
      · simp only [Except.ok.injEq] at h
        subst h
        rfl

theorem required_iff_bare_name_four_param_witness :
    ((sample_optional "--x" "").required = true ↔ starts_dash "--x" = false) ∧
    (input_argument.required = true ↔ starts_dash "input" = false) ∧
    verbose_flag.required = false :=
  ⟨(required_iff_bare_name_four_param 0 "-v" "--x" "m" 0 0 (sample_optional "--x" "") 0).1 rfl,
   (required_iff_bare_name_four_param 0 "-v" "input" "m" 0 0 input_argument 1).1 rfl,
   (required_iff_bare_name_four_param 0 "-v" "--verbose" "be verbose" 0 0 verbose_flag 0).2
     rfl⟩

/-- C17 (evaluation at a failing input). After the successful registration of the optional
int `--count` and of the optional string `--name`, both built by the four-parameter
constructor (whose short name is empty), the empty string is a key of the string
partition and of the int partition, while `--count` is a key of the int partition only. -/
theorem empty_key_in_two_partitions :
    two_optional_has_key "" = some (true, true) ∧
    two_optional_has_key "--count" = some (false, true) := by
  constructor <;> decide!

/-- C19 (evaluation at failing inputs). With the optional int `--x` of length 1 and the
single token `--x`, `parse` reads `args_to_parse[1]` of a vector of one token before
`check_validity` ends the run. With the required strings `pair` (length 1) and `other`
and the tokens `["a", "b"]`, the positional phase reads `args_to_parse[2]` of a vector of
two tokens as the current token of position 1, and `parse` returns with `other` bound to
what that read yielded. -/
theorem token_read_past_the_end :
    read_view (parse env0 0 sample_registry "prog" ["--x"] store0).2 =
      some { returned := false, exit := some (.no_more_values "--x" "" 1), reads := [1, 0],
             str0 := "", str1 := "" } ∧
    pair_run ["a", "b"] =
      some { returned := true, exit := none, reads := [2, 1, 0], str0 := "b",
             str1 := env0.junk 2 } := by
  constructor <;> decide!

/-- C20 (as stated, at a concrete input). The optional ints `--a` and `--b` are bound to
the same cell `ints[0]`, which holds 0. On the tokens `["--a", "5"]` `parse` succeeds;
`--b` is stored under the single key `--b`, and neither its long name nor its (empty)
short name occurs among the tokens; yet its bound storage has changed to 5. -/
theorem aliased_storage_changes :
    alias_run ["--a", "5"] =
      some { returned := true, exit := none, str := "", int := 5, count := 0,
             verbose := false } ∧
    alias_keys "--b" = some ["--b"] ∧ "--b" ∉ ["--a", "5"] ∧ "" ∉ ["--a", "5"] ∧
    store0.ints 0 = 0 := by
  refine ⟨?_, ?_, ?_, ?_, ?_⟩ <;> decide!

/-- C20 (amended). Frame: when `parse` succeeds, every cell of the caller's memory that no
matched argument can write is unchanged, that is every cell such that each argument
whose bound storage contains it is stored only under keys that do not occur among the
tokens and has no positional index below the counter. In particular the bound storage of
an optional argument none of whose keys occurs among the tokens is unchanged, provided no
other argument of its partition has bound storage that overlaps it. `parse` leaves the
five partitions as they were; and with zero tokens and a counter of zero `parse` returns
at once, in its initial state. -/
theorem successful_parse_frame {F D : Type} (env : Env F D) (num_required : Nat)
    (r : ArgParse) (prog : String) (toks : List String) (store : Store F D)
    (st' : PState F D) (hret : (parse env num_required r prog toks store).2 = .returned st') :
    (∀ ty addr, cell_untouched num_required r toks ty addr →
      st'.store.read ty addr = store.read ty addr) ∧
    (∀ ty k a, (k, a) ∈ r.part ty → a.required = false → a.positional < 0 →
      (∀ k', (k', a) ∈ r.part ty → k' ∉ toks) →
      (∀ k' b, (k', b) ∈ r.part ty → b ≠ a →
        ∀ addr, writes_cell a addr = true → writes_cell b addr = false) →
      ∀ addr, writes_cell a addr = true → st'.store.read ty addr = store.read ty addr) ∧
    (∀ ty, (parse env num_required r prog toks store).1.part ty = r.part ty) ∧
    (parse env 0 r prog [] store).2 = .returned (initial_state store) := by
  refine ⟨?_, ?_, ?_, ?_⟩
  · intro ty addr hcell
    exact parse_frame env num_required r prog toks store st' hret ty addr hcell
  · intro ty k a _ _ hpos hkeys hdisj addr hw
    apply parse_frame env num_required r prog toks store st' hret ty addr
    intro k' b hm hwb
    by_cases hba : b = a
    · subst hba
      exact ⟨hkeys k' hm, fun hc => by omega⟩
    · rw [hdisj k' b hm hba addr hw] at hwb
      exact absurd hwb (by simp)
  · intro ty
    rw [parse_registry]
    cases ty <;> rfl
  · rw [parse_outcome]
    simp [initial_state]

theorem successful_parse_frame_witness :
    ∃ st', (parse env0 0 flag_registry "prog" ["-v"] store0).2 = .returned st' ∧
      st'.store.read .int 0 = store0.read .int 0 ∧
      st'.store.read .int 1 = store0.read .int 1 ∧
      st'.store.bools 0 = true := by
  cases hout : (parse env0 0 flag_registry "prog" ["-v"] store0).2 with
  | exited e st =>
    have h : (parse env0 0 flag_registry "prog" ["-v"] store0).2.is_returned = true := by
      decide!
    rw [hout] at h
    exact absurd h (by simp [Outcome.is_returned])
  | out_of_fuel =>
    exact absurd hout (parse_ne_out_of_fuel env0 0 flag_registry "prog" ["-v"] store0)
  | returned st' =>
    have hframe := (successful_parse_frame env0 0 flag_registry "prog" ["-v"] store0 st'
      hout).2.1 .int "--range" range_argument (by decide) rfl (by decide)
      (by
        intro k' hk'
        have : k' = "--range" ∨ k' = "-r" := by
          simpa [flag_registry, ArgParse.part] using hk'
        rcases this with rfl | rfl <;> decide)
      (by
        intro k' b hb hne
        have : b = range_argument := by
          have := hb
          simp only [flag_registry, ArgParse.part, List.mem_cons, Prod.mk.injEq,
            List.mem_singleton, List.not_mem_nil, or_false] at this
          rcases this with ⟨_, h⟩ | ⟨_, h⟩ <;> exact h
        exact absurd this hne)
    have hb : ((parse env0 0 flag_registry "prog" ["-v"] store0).2.state?.map
        fun st => st.store.bools 0) = some true := by decide!
    rw [hout] at hb
    exact ⟨st', rfl, hframe 0 (by decide), hframe 1 (by decide),
      by simpa [Outcome.state?] using hb⟩

end bsc
